import Mathlib

/-!
Verification of the sandboxed filesystem inspection toolset
(`view_directory_tools.py`, `view_file_tools.py`).

The Python tools are shallowly embedded as total Lean functions over
* `Env` — the process environment (current working directory, home);
* `FsNode` — a snapshot of a filesystem subtree (directories carry their
  entry list in `os.listdir` enumeration order; fallible OS calls such as
  `os.listdir`, `os.path.getsize` and `open`/`read` are modelled with
  `Except String`, the error carrying the exception message);
* `FS := String → Option FsNode` — resolution of a normalized absolute
  path to the node living there (`none`: the path does not exist).

Python `str` is modelled by `String` (comparison by code points, as in
Python), `os.sep` is `'/'` (POSIX), and whitespace for `str.strip` /
regex `\s` is the ASCII whitespace class.
-/

namespace ViewTools

/-- ASCII whitespace, as stripped by Python `str.strip()` and matched by
regex `\s` on the inputs of interest. -/
def pyIsWS (c : Char) : Bool :=
  c = ' ' || c = '\t' || c = '\n' || c = '\r' || c = '\x0b' || c = '\x0c'

/-- The backtick character (written via its code point, U+0060). -/
def btick : Char := Char.ofNat 96

def lstripWS (l : List Char) : List Char := l.dropWhile pyIsWS

def rstripWS (l : List Char) : List Char := (l.reverse.dropWhile pyIsWS).reverse

/-- Python `str.strip()` on a character list. -/
def stripWS (l : List Char) : List Char := rstripWS (lstripWS l)

/-- Lexicographic comparison of character lists by code point —
Python's `<=` on `str`. -/
def lexLe : List Char → List Char → Bool
  | [], _ => true
  | _ :: _, [] => false
  | a :: as, b :: bs =>
    if a.toNat < b.toNat then true
    else if a.toNat = b.toNat then lexLe as bs else false

/-- Strict lexicographic comparison by code point — Python's `<` on `str`. -/
def lexLt : List Char → List Char → Bool
  | [], [] => false
  | [], _ :: _ => true
  | _ :: _, [] => false
  | a :: as, b :: bs =>
    if a.toNat < b.toNat then true
    else if a.toNat = b.toNat then lexLt as bs else false

def strLeb (a b : String) : Bool := lexLe a.data b.data

def strLtb (a b : String) : Bool := lexLt a.data b.data

/-! ### The path sanitizer

`_run` first strips the raw argument, then applies
`re.sub(r"^\s*```(?:json|python|text|sh|bash|plaintext)?\s*|\s*```\s*$", "", s, flags=re.DOTALL)`,
then deletes every newline and backtick (`re.sub(r"[\n`]", "", s)`),
and finally strips again.

For the anchored alternation on an already-stripped string, `re.sub`
performs exactly:
* the `^`-anchored branch matches iff the string starts with three
  backticks; it consumes them, then (directly after them) at most one
  language hint from the alternation—tried in the written order—and then
  greedily any whitespace;
* scanning the remainder, the `$`-anchored branch matches at the leftmost
  position whose suffix is whitespace, three backticks, whitespace: i.e.
  iff the remainder, after discarding trailing whitespace, ends in three
  backticks; the match swallows those backticks together with the
  whitespace around them. -/

def fenceChars : List Char := [btick, btick, btick]

/-- The language hints of the fence regex, in alternation order. -/
def langHints : List (List Char) :=
  ["json".data, "python".data, "text".data, "sh".data, "bash".data, "plaintext".data]

/-- Drop the (at most one) language hint the regex group
`(?:json|python|text|sh|bash|plaintext)?` consumes. -/
def dropHint (l : List Char) : List Char :=
  match langHints.find? (fun h => h.isPrefixOf l) with
  | some h => l.drop h.length
  | none => l

/-- One pass of the fence-stripping `re.sub` on a pre-stripped string. -/
def stripFences (l : List Char) : List Char :=
  let afterA := if fenceChars.isPrefixOf l then lstripWS (dropHint (l.drop 3)) else l
  let t := rstripWS afterA
  if fenceChars.isSuffixOf t then rstripWS (t.take (t.length - 3)) else afterA

/-- `re.sub(r"[\n`]", "", s)` — delete newlines and backticks. -/
def dropNlBticks (l : List Char) : List Char :=
  l.filter (fun c => !(c = '\n' || c = btick))

/-- The complete cleanup applied by every tool to its raw path argument. -/
def sanitize (s : String) : String :=
  String.mk (stripWS (dropNlBticks (stripFences (stripWS s.data))))

/-! ### `os.path` on POSIX -/

/-- Count of `os.sep` occurrences — `root.count(os.sep)`. -/
def countSep (s : String) : Nat := s.data.count '/'

/-- `os.path.join(a, b)` for a single right operand (POSIX). -/
def pyJoin (a b : String) : String :=
  if b.data.head? = some '/' then b
  else if a = "" || a.data.getLast? = some '/' then a ++ b
  else a ++ "/" ++ b

/-- Split on `'/'`, keeping empty components — Python `path.split('/')`. -/
def splitSlash : List Char → List (List Char)
  | [] => [[]]
  | c :: rest =>
    if c = '/' then [] :: splitSlash rest
    else
      match splitSlash rest with
      | [] => [[c]]
      | g :: gs => (c :: g) :: gs

/-- The component loop of `posixpath.normpath`: `acc` holds the collected
components in reverse (so Python's append/pop at the end of `new_comps`
are cons/tail here). -/
def normLoop (initSl : Nat) : List (List Char) → List (List Char) → List (List Char)
  | acc, [] => acc
  | acc, comp :: rest =>
    if comp = [] || comp = ['.'] then normLoop initSl acc rest
    else if comp ≠ ['.', '.'] || (initSl = 0 && acc.isEmpty) ||
        (acc.head? = some ['.', '.']) then
      normLoop initSl (comp :: acc) rest
    else
      match acc with
      | [] => normLoop initSl acc rest
      | _ :: as2 => normLoop initSl as2 rest

/-- `posixpath.normpath`. -/
def normpath (s : String) : String :=
  if s = "" then "."
  else
    let l := s.data
    let initSl : Nat :=
      if l.head? = some '/' then
        if ['/', '/'].isPrefixOf l && ¬ (['/', '/', '/'].isPrefixOf l) then 2 else 1
      else 0
    let comps := (normLoop initSl [] (splitSlash l)).reverse
    let body := List.intercalate ['/'] comps
    let out := List.replicate initSl '/' ++ body
    if out = [] then "." else String.mk out

/-- `posixpath.expanduser` with `$HOME = home`; `~user` forms are returned
unchanged (the model takes every non-bare user as unknown, which CPython
answers by returning the path unchanged). -/
def expanduser (home p : String) : String :=
  if p.data.head? = some '~' then
    let i := ((p.data.drop 1).takeWhile (fun c => c ≠ '/')).length + 1
    if i = 1 then
      let uh := String.mk (home.data.reverse.dropWhile (fun c => c = '/')).reverse
      let r := uh ++ String.mk (p.data.drop i)
      if r = "" then "/" else r
    else p
  else p

/-- `posixpath.abspath` with the process working directory `cwd`. -/
def abspath (cwd p : String) : String :=
  if p.data.head? = some '/' then normpath p else normpath (pyJoin cwd p)

/-- The process environment visible to the tools. -/
structure Env where
  cwd : String
  home : String

/-- `os.path.abspath(os.path.expanduser(cleaned))` applied to the
sanitized argument — the normalized path every tool operates on. -/
def resolveInput (env : Env) (s : String) : String :=
  abspath env.cwd (expanduser env.home (sanitize s))

/-! ### Filesystem snapshot -/

/-- What the OS reports for a regular file. `size`: the result of
`os.path.getsize` (`error`: the call raises, message attached);
`content`: what `open(..., "r", encoding="utf-8", errors="replace").read()`
returns — already decoded text, replacement characters included
(`error`: `open`/`read` raises). -/
structure FileData where
  size : Except String Nat
  content : Except String String

/-- A filesystem subtree. A directory carries its entries in `os.listdir`
enumeration order (`error`: `os.listdir`/`os.scandir` raises). -/
inductive FsNode where
  | file : FileData → FsNode
  | dir : Except String (List (String × FsNode)) → FsNode

/-- Resolution of a normalized absolute path: `none` — the path does not
exist (`os.path.exists` is false). -/
abbrev FS := String → Option FsNode

def isDirNode : FsNode → Bool
  | .dir _ => true
  | .file _ => false

def isFileNode : FsNode → Bool
  | .file _ => true
  | .dir _ => false

/-! ### `DirectoryListingTool._run` -/

/-- The `exclude_dirs` list of `DirectoryListingTool._run`. -/
def excludeDirs : List String :=
  ["venv", "env", "node_modules", ".git", "__pycache__",
   ".venv", "vtm_venv", ".pytest_cache"]

mutual
/-- The `os.walk` loop of `DirectoryListingTool._run`, collecting the
`full_path` strings that get appended (the `"Directory: "` tag is added by
the caller). `base` is `base_depth = normalized_directory.count(os.sep)`;
the guard mirrors `current_depth = root.count(os.sep) - base_depth` with
`dirs.clear(); continue` at `current_depth >= 2`. `os.walk` yields a
visited directory's (filtered) subdirectory names before recursing into
each of them, and swallows a failing `scandir` (yielding nothing for that
directory). The `os.path.isdir(full_path)` re-check inside the loop is
true on a consistent snapshot for every entry `os.walk` lists in `dirs`. -/
def walkCollect : FsNode → String → Nat → List String
  | .file _, _, _ => []
  | .dir (.error _), _, _ => []
  | .dir (.ok es), root, base =>
    if countSep root - base ≥ 2 then []
    else
      (es.filter (fun e => isDirNode e.2 && !excludeDirs.contains e.1)).map
          (fun e => pyJoin root e.1) ++
        walkDescend es root base

/-- The recursive part of `os.walk`: after a visited directory's body ran,
the walk descends — in listing order — into exactly the subdirectories
that survived the `dirs[:]` filter, each contributing its own collected
paths before the next sibling is entered. -/
def walkDescend : List (String × FsNode) → String → Nat → List String
  | [], _, _ => []
  | (n, c) :: rest, root, base =>
    (if isDirNode c && !excludeDirs.contains n then walkCollect c (pyJoin root n) base
     else []) ++ walkDescend rest root base
end

/-- `DirectoryListingTool._run` after path normalization. -/
def directoryListingCore (fs : FS) (normalized : String) : String :=
  match fs normalized with
  | none => "[Error]: Directory does not exist: " ++ normalized
  | some (.file _) => "[Error]: Path exists but is not a directory: " ++ normalized
  | some (.dir d) =>
    let directories := ("Root Directory: " ++ normalized) ::
      (walkCollect (.dir d) normalized (countSep normalized)).map
        (fun p => "Directory: " ++ p)
    if directories.length ≤ 1 then
      "Only found the root directory: " ++ normalized ++ ". No subdirectories found."
    else String.intercalate "\n" directories

def directoryListingRun (env : Env) (fs : FS) (directory : String) : String :=
  directoryListingCore fs (resolveInput env directory)

/-! ### `FileListingTool._run` -/

/-- The truncation notice, with `max_files = 50` interpolated. -/
def truncNotice : String := "... (more files exist but limited to 50 for display)"

/-- One appended file line: with the byte size when `os.path.getsize`
succeeds, bare when it raises (the inner `try`/bare `except`). -/
def fileEntryLine (item_path : String) (sz : Except String Nat) : String :=
  match sz with
  | .ok n => "File: " ++ item_path ++ " (" ++ toString n ++ " bytes)"
  | .error _ => "File: " ++ item_path

/-- The `for item in os.listdir(...)` loop of `FileListingTool._run`:
the cap check `len(files) >= max_files` runs on each entry before its
`os.path.isfile` test, appending the truncation notice and breaking. -/
def listFilesLoop (dir : String) : List (String × FsNode) → List String → List String
  | [], files => files
  | (name, node) :: rest, files =>
    if files.length ≥ 50 then files ++ [truncNotice]
    else match node with
      | .file fd => listFilesLoop dir rest (files ++ [fileEntryLine (pyJoin dir name) fd.size])
      | .dir _ => listFilesLoop dir rest files

/-- `FileListingTool._run` after path normalization. -/
def fileListingCore (fs : FS) (normalized : String) : String :=
  match fs normalized with
  | none => "[Error]: Directory does not exist: " ++ normalized
  | some (.file _) => "[Error]: Path exists but is not a directory: " ++ normalized
  | some (.dir (.error e)) => "[Error]: Failed to list files: " ++ e
  | some (.dir (.ok es)) =>
    let files := listFilesLoop normalized es []
    if files.isEmpty then "No files found in " ++ normalized
    else "Files in " ++ normalized ++ ":\n" ++ String.intercalate "\n" files

def fileListingRun (env : Env) (fs : FS) (directory : String) : String :=
  fileListingCore fs (resolveInput env directory)

/-! ### `DirectoryStructureTool._run` -/

/-- The `exclude_items` list of `build_tree` (the walker's list plus the
macOS metadata artifact). -/
def excludeItems : List String :=
  ["venv", "env", "node_modules", ".git", "__pycache__",
   ".venv", "vtm_venv", ".pytest_cache", ".DS_Store"]

/-- Insert into a code-point-sorted list — one step of `sorted()`. -/
def insertStr (x : String) : List String → List String
  | [] => [x]
  | y :: ys => if strLeb x y then x :: y :: ys else y :: insertStr x ys

/-- Python `sorted()` on a list of names: the unique rearrangement that is
lexicographically sorted by code point. -/
def sortStrs : List String → List String
  | [] => []
  | x :: xs => insertStr x (sortStrs xs)

/-- Resolution of `os.path.join(path, item)` against the listing `path`
came from: the entry named `item`, if any (listings of a real directory
hold each name at most once). -/
def findEntry (es : List (String × FsNode)) (item : String) : Option FsNode :=
  match es.find? (fun e => e.1 == item) with
  | some e => some e.2
  | none => none

/-- The `for i, item in enumerate(items)` body of `build_tree`.
`rec2` performs the recursive `build_tree` call at the next depth.
A name that resolves to nothing (impossible on a consistent snapshot)
renders bare: `os.path.isdir` is false and `os.path.getsize` raises into
the bare `except`. -/
def renderItems (rec2 : FsNode → String → String → List String)
    (es : List (String × FsNode)) (path pfx : String) : List String → List String
  | [] => []
  | item :: rest =>
    let isLast := rest.isEmpty
    let cur := pfx ++ (if isLast then "└── " else "├── ")
    let nextPfx := pfx ++ (if isLast then "    " else "│   ")
    let itemPath := pyJoin path item
    (match findEntry es item with
     | some (.dir d) => (cur ++ item ++ "/") :: rec2 (.dir d) itemPath nextPfx
     | some (.file fd) =>
       match fd.size with
       | .ok n => [cur ++ item ++ " (" ++ toString n ++ " bytes)"]
       | .error _ => [cur ++ item]
     | none => [cur ++ item]) ++ renderItems rec2 es path pfx rest

/-- `build_tree(path, prefix, max_depth=2, current_depth)`, recursing on
`rem := max_depth - current_depth` (so `rem = 0` is exactly the guard
`current_depth >= max_depth`, and the recursive call at
`current_depth + 1` receives `rem - 1`). A directory whose `os.listdir`
raises produces the single inline error line of the `except` branch. -/
def buildTree : FsNode → String → String → Nat → List String
  | _, _, _, 0 => []
  | .file _, _, _, _ + 1 => []
  | .dir (.error e), _, pfx, _ + 1 => [pfx ++ "[Error reading directory: " ++ e ++ "]"]
  | .dir (.ok es), path, pfx, rem + 1 =>
    let items := (sortStrs (es.map (fun e => e.1))).filter (fun i => !excludeItems.contains i)
    renderItems (fun c p q => buildTree c p q rem) es path pfx items

/-- `DirectoryStructureTool._run` after path normalization. -/
def treeCore (fs : FS) (normalized : String) : String :=
  match fs normalized with
  | none => "[Error]: Directory does not exist: " ++ normalized
  | some (.file _) => "[Error]: Path exists but is not a directory: " ++ normalized
  | some (.dir d) =>
    String.intercalate "\n" ((normalized ++ "/") :: buildTree (.dir d) normalized "" 2)

def treeRun (env : Env) (fs : FS) (directory : String) : String :=
  treeCore fs (resolveInput env directory)

/-! ### `ViewFileTool._run` -/

/-- `ViewFileTool._run` after path normalization. -/
def viewFileCore (fs : FS) (normalized : String) : String :=
  match fs normalized with
  | none => "[Error]: File does not exist: " ++ normalized
  | some (.dir _) => "[Error]: Path exists but is not a file: " ++ normalized
  | some (.file fd) =>
    match fd.size with
    | .error e => "[Error]: Failed to read file '" ++ normalized ++ "': " ++ e
    | .ok file_size =>
      if file_size > 100000 then
        "[Error]: File is too large (" ++ toString file_size ++
          " bytes > 100000 bytes). Use view_file_lines for large files."
      else match fd.content with
        | .error e => "[Error]: Failed to read file '" ++ normalized ++ "': " ++ e
        | .ok content =>
          "File: " ++ normalized ++ "\nSize: " ++ toString file_size ++
            " bytes\n\nContent:\n" ++ content

def viewFileRun (env : Env) (fs : FS) (filepath : String) : String :=
  viewFileCore fs (resolveInput env filepath)

/-! ### `ViewFileLinesTool._run` -/

/-- Python `file.readlines()`: split the decoded text after each newline,
keeping the newline; a final fragment without one is still a line. -/
def readlinesAux (cur : List Char) : List Char → List (List Char)
  | [] => if cur.isEmpty then [] else [cur.reverse]
  | c :: rest =>
    if c = '\n' then (cur.reverse ++ ['\n']) :: readlinesAux [] rest
    else readlinesAux (c :: cur) rest

def readlines (s : String) : List String := (readlinesAux [] s.data).map String.mk

/-- `line.rstrip("\n")`. -/
def rstripNl (s : String) : String :=
  String.mk (s.data.reverse.dropWhile (fun c => c = '\n')).reverse

/-- `f"{i:4d}"` — decimal, right-aligned to width 4 with spaces. -/
def fmt4 (i : Int) : String :=
  let s := toString i
  if s.length < 4 then String.mk (List.replicate (4 - s.length) ' ') ++ s else s

/-- `lines[a : b]` for `0 ≤ a ≤ b` (the only shape reached:
`a = start_line - 1 ≥ 0` and `b = actual_end_line ≥ a`). -/
def listSlice (l : List String) (a b : Int) : List String :=
  (l.drop a.toNat).take (b - a).toNat

/-- The `for i, line in enumerate(selected_lines, start=start_line)`
accumulation. -/
def formatNumbered : Int → List String → String
  | _, [] => ""
  | i, line :: rest => fmt4 i ++ ": " ++ rstripNl line ++ "\n" ++ formatNumbered (i + 1) rest

/-- `ViewFileLinesTool._run` after path normalization. -/
def viewFileLinesCore (fs : FS) (normalized : String)
    (start_line end_line : Int) : String :=
  match fs normalized with
  | none => "[Error]: File does not exist: " ++ normalized
  | some (.dir _) => "[Error]: Path exists but is not a file: " ++ normalized
  | some (.file fd) =>
    if start_line < 1 then
      "[Error]: Start line must be >= 1, got " ++ toString start_line
    else if end_line < start_line then
      "[Error]: End line (" ++ toString end_line ++ ") must be >= start line (" ++
        toString start_line ++ ")"
    else if end_line - start_line + 1 > 100 then
      "[Error]: Too many lines requested (" ++ toString (end_line - start_line + 1) ++
        "). Maximum 100 lines per request."
    else match fd.content with
      | .error e => "[Error]: Failed to read file '" ++ normalized ++ "': " ++ e
      | .ok text =>
        let lines := readlines text
        let total_lines := lines.length
        if start_line > (total_lines : Int) then
          "[Error]: Start line " ++ toString start_line ++ " exceeds file length (" ++
            toString total_lines ++ " lines)"
        else
          let actual_end_line := min end_line (total_lines : Int)
          let selected_lines := listSlice lines (start_line - 1) actual_end_line
          "File: " ++ normalized ++ "\nLines " ++ toString start_line ++ "-" ++
            toString actual_end_line ++ " of " ++ toString total_lines ++ ":\n\n" ++
            formatNumbered start_line selected_lines

def viewFileLinesRun (env : Env) (fs : FS) (filepath : String)
    (start_line end_line : Int) : String :=
  viewFileLinesCore fs (resolveInput env filepath) start_line end_line

/-! ### Statement-side vocabulary

The definitions below are used only to state properties; they are written
from the specification's wording, not from the source. -/

/-- A path wrapped in fenced-code markers with language hint `h`
(`h = ""`: a bare fence), as an LLM emits it. -/
def fenceWrap (h p : String) : String := "```" ++ h ++ "\n" ++ p ++ "\n```"

/-- A path wrapped in (single) backticks. -/
def btickWrap (p : String) : String := "`" ++ p ++ "`"

/-- A path wrapped in newlines. -/
def nlWrap (p : String) : String := "\n" ++ p ++ "\n"

/-- The hint strings the fence regex recognises (plus the bare fence). -/
def hintStrings : List String :=
  ["", "json", "python", "text", "sh", "bash", "plaintext"]

/-- Join `segs` below `root`, one `os.path.join` per segment. -/
def segsJoin (root : String) (segs : List String) : String :=
  segs.foldl pyJoin root

/-- The path segments of `p` strictly below `root` (assuming `root` is a
prefix of `p`): drop the root (and its separator) and split the rest. -/
def segsBelow (root p : String) : List String :=
  let tail :=
    if root.data.getLast? = some '/' then p.data.drop root.length
    else p.data.drop (root.length + 1)
  (splitSlash tail).map String.mk

/-- A string shaped like one of the File Lister's explicit file entries. -/
def IsFileLine (s : String) : Prop := ∃ p z, s = fileEntryLine p z

/-- No duplicates in a list of names. -/
def nodupKeys : List String → Bool
  | [] => true
  | x :: xs => !xs.contains x && nodupKeys xs

mutual
/-- A snapshot in which no directory listing repeats a name — true of
every real filesystem directory. -/
inductive WFKeys : FsNode → Prop where
  | file (d) : WFKeys (.file d)
  | dirErr (e) : WFKeys (.dir (.error e))
  | dirOk {es} : nodupKeys (es.map (fun e => e.1)) = true → WFKeysList es →
      WFKeys (.dir (.ok es))
inductive WFKeysList : List (String × FsNode) → Prop where
  | nil : WFKeysList []
  | cons {n c r} : WFKeys c → WFKeysList r → WFKeysList ((n, c) :: r)
end

mutual
/-- A snapshot whose entry names are genuine path segments: nonempty and
free of the separator — true of every real directory entry name. -/
inductive NamesOK : FsNode → Prop where
  | file (d) : NamesOK (.file d)
  | dirErr (e) : NamesOK (.dir (.error e))
  | dirOk {es} : (∀ e ∈ es, (e : String × FsNode).1 ≠ "" ∧ '/' ∉ (e.1 : String).data) →
      NamesOKList es → NamesOK (.dir (.ok es))
inductive NamesOKList : List (String × FsNode) → Prop where
  | nil : NamesOKList []
  | cons {n c r} : NamesOK c → NamesOKList r → NamesOKList ((n, c) :: r)
end

mutual
/-- `Shuffle a b`: `a` and `b` are snapshots of the same unchanged
directory tree, differing only in the enumeration order `os.listdir`
happened to produce at each level. -/
inductive Shuffle : FsNode → FsNode → Prop where
  | file (d) : Shuffle (.file d) (.file d)
  | dirErr (e) : Shuffle (.dir (.error e)) (.dir (.error e))
  | dirOk {es₁ es₂ es₃} : ShuffleList es₁ es₂ → es₂.Perm es₃ →
      Shuffle (.dir (.ok es₁)) (.dir (.ok es₃))
inductive ShuffleList : List (String × FsNode) → List (String × FsNode) → Prop where
  | nil : ShuffleList [] []
  | cons {n c c2 r r2} : Shuffle c c2 → ShuffleList r r2 →
      ShuffleList ((n, c) :: r) ((n, c2) :: r2)
end

/-! ### Shared concrete fixtures for witnesses and counterexamples -/

/-- A process environment: working directory `/w`, home `/home/u`. -/
def env0 : Env := ⟨"/w", "/home/u"⟩

/-- A healthy regular file of size `n` and decoded content `c`. -/
def okFile (n : Nat) (c : String) : FsNode := .file ⟨.ok n, .ok c⟩

/-- The empty filesystem. -/
def fsEmpty : FS := fun _ => none

/-- A two-level directory tree exactly as one `os.listdir` enumeration
order produced it: files `b` and `a/c`, `a/d`. -/
def nT1 : FsNode :=
  .dir (.ok [("b", okFile 1 ""),
             ("a", .dir (.ok [("d", okFile 2 ""), ("c", okFile 3 "")]))])

/-- The same unchanged tree as a different enumeration order produced it. -/
def nT2 : FsNode :=
  .dir (.ok [("a", .dir (.ok [("c", okFile 3 ""), ("d", okFile 2 "")])),
             ("b", okFile 1 "")])

/-- A filesystem holding the first snapshot at `/t`. -/
def fsT1 : FS := fun p => if p = "/t" then some nT1 else none

/-- A filesystem holding the second snapshot at `/t`. -/
def fsT2 : FS := fun p => if p = "/t" then some nT2 else none

/-! ## Theorems -/

/-- Claim C1: every tool operation is a total function into `String` — in
this embedding each `.._Run` is a total Lean function for every
environment, filesystem snapshot, input string and (for the line-range
tool) every pair of integers, so no exception can escape a call — and
each validation or I/O failure boundary surfaces as the corresponding
descriptive `[Error]: ...` string: missing path, wrong path type, a
raising `os.path.getsize`, a raising `open`/`read`, and a raising
`os.listdir` are all answered with the error string the source's
`return`/`except` branches build. -/
theorem c1_failures_reported (env : Env) (fs : FS) (s : String) (r : String)
    (hr : r = resolveInput env s) :
    (fs r = none →
      directoryListingRun env fs s = "[Error]: Directory does not exist: " ++ r ∧
      fileListingRun env fs s = "[Error]: Directory does not exist: " ++ r ∧
      treeRun env fs s = "[Error]: Directory does not exist: " ++ r ∧
      viewFileRun env fs s = "[Error]: File does not exist: " ++ r ∧
      ∀ a b : Int, viewFileLinesRun env fs s a b = "[Error]: File does not exist: " ++ r) ∧
    (∀ fd, fs r = some (.file fd) →
      directoryListingRun env fs s = "[Error]: Path exists but is not a directory: " ++ r ∧
      fileListingRun env fs s = "[Error]: Path exists but is not a directory: " ++ r ∧
      treeRun env fs s = "[Error]: Path exists but is not a directory: " ++ r) ∧
    (∀ d, fs r = some (.dir d) →
      viewFileRun env fs s = "[Error]: Path exists but is not a file: " ++ r ∧
      ∀ a b : Int, viewFileLinesRun env fs s a b = "[Error]: Path exists but is not a file: " ++ r) ∧
    (∀ fd e, fs r = some (.file fd) → fd.size = .error e →
      viewFileRun env fs s = "[Error]: Failed to read file '" ++ r ++ "': " ++ e) ∧
    (∀ fd n e, fs r = some (.file fd) → fd.size = .ok n → n ≤ 100000 →
      fd.content = .error e →
      viewFileRun env fs s = "[Error]: Failed to read file '" ++ r ++ "': " ++ e) ∧
    (∀ fd e a b, fs r = some (.file fd) → fd.content = .error e → 1 ≤ a → a ≤ b →
      b - a + 1 ≤ 100 →
      viewFileLinesRun env fs s a b = "[Error]: Failed to read file '" ++ r ++ "': " ++ e) ∧
    (∀ e, fs r = some (.dir (.error e)) →
      fileListingRun env fs s = "[Error]: Failed to list files: " ++ e) := by
  subst hr
  refine ⟨fun h => ?_, fun fd h => ?_, fun d h => ?_, fun fd e h hs => ?_,
    fun fd n e h hs hn hc => ?_, fun fd e a b h hc ha hab hspan => ?_, fun e h => ?_⟩
  · refine ⟨?_, ?_, ?_, ?_, fun a b => ?_⟩ <;>
      simp [directoryListingRun, directoryListingCore, fileListingRun, fileListingCore,
        treeRun, treeCore, viewFileRun, viewFileCore, viewFileLinesRun, viewFileLinesCore, h]
  · refine ⟨?_, ?_, ?_⟩ <;>
      simp [directoryListingRun, directoryListingCore, fileListingRun, fileListingCore,
        treeRun, treeCore, h]
  · refine ⟨?_, fun a b => ?_⟩ <;>
      simp [viewFileRun, viewFileCore, viewFileLinesRun, viewFileLinesCore, h]
  · simp [viewFileRun, viewFileCore, h, hs]
  · have hn2 : ¬ (n > 100000) := by omega
    simp [viewFileRun, viewFileCore, h, hs, hn2, hc]
  · have h1 : ¬ (a < 1) := by omega
    have h2 : ¬ (b < a) := by omega
    have h3 : ¬ (b - a + 1 > 100) := by omega
    simp [viewFileLinesRun, viewFileLinesCore, h, hc, h1, h2, h3]
  · simp [fileListingRun, fileListingCore, h]

/-- Witness for C1: in the empty filesystem, a concrete call of each shape
returns the concrete error string. -/
theorem c1_witness :
    directoryListingRun env0 fsEmpty "x" = "[Error]: Directory does not exist: /w/x" ∧
    viewFileLinesRun env0 fsEmpty "x" 2 1 = "[Error]: File does not exist: /w/x" := by
  have h := c1_failures_reported env0 fsEmpty "x" "/w/x" (by rfl)
  exact ⟨(h.1 rfl).1, (h.1 rfl).2.2.2.2 2 1⟩

/-- Claim C2: on an existing regular file the Line-Range Viewer validates
in the order path type (above), `start ≥ 1`, `end ≥ start`, span `≤ 100`,
each violation short-circuiting with its own error; 5–3 yields the range
error, 1–150 yields the span error on any file, the three validation
errors are pairwise distinct, and 995–1005 on a 1000-line file is served
as lines 995–1000 with the total reported as 1000 (the requested end is
clamped with `min`), not an error. -/
theorem c2_line_range_validation (env : Env) (fs : FS) (s : String) (r : String)
    (fd : FileData) (hr : r = resolveInput env s) (hfd : fs r = some (.file fd)) :
    (∀ a b : Int, a < 1 →
      viewFileLinesRun env fs s a b = "[Error]: Start line must be >= 1, got " ++ toString a) ∧
    (∀ a b : Int, 1 ≤ a → b < a →
      viewFileLinesRun env fs s a b =
        "[Error]: End line (" ++ toString b ++ ") must be >= start line (" ++ toString a ++ ")") ∧
    (∀ a b : Int, 1 ≤ a → a ≤ b → b - a + 1 > 100 →
      viewFileLinesRun env fs s a b =
        "[Error]: Too many lines requested (" ++ toString (b - a + 1) ++
          "). Maximum 100 lines per request.") ∧
    (viewFileLinesRun env fs s 5 3 = "[Error]: End line (3) must be >= start line (5)") ∧
    (viewFileLinesRun env fs s 1 150 =
      "[Error]: Too many lines requested (150). Maximum 100 lines per request.") ∧
    ("[Error]: Start line must be >= 1, got " ++ toString (0 : Int) ≠
        "[Error]: End line (3) must be >= start line (5)" ∧
      "[Error]: End line (3) must be >= start line (5)" ≠
        "[Error]: Too many lines requested (150). Maximum 100 lines per request." ∧
      "[Error]: Start line must be >= 1, got " ++ toString (0 : Int) ≠
        "[Error]: Too many lines requested (150). Maximum 100 lines per request.") ∧
    (∀ text, fd.content = .ok text → (readlines text).length = 1000 →
      viewFileLinesRun env fs s 995 1005 =
        "File: " ++ r ++ "\nLines 995-1000 of 1000:\n\n" ++
          formatNumbered 995 (listSlice (readlines text) 994 1000)) := by
  subst hr
  refine ⟨fun a b ha => ?_, fun a b ha hb => ?_, fun a b ha hab hspan => ?_, ?_, ?_,
    ⟨by decide, by decide, by decide⟩, fun text hc hlen => ?_⟩
  · simp [viewFileLinesRun, viewFileLinesCore, hfd, ha]
  · have h1 : ¬ (a < 1) := by omega
    simp [viewFileLinesRun, viewFileLinesCore, hfd, h1, hb]
  · have h1 : ¬ (a < 1) := by omega
    have h2 : ¬ (b < a) := by omega
    simp [viewFileLinesRun, viewFileLinesCore, hfd, h1, h2, hspan]
  · simp [viewFileLinesRun, viewFileLinesCore, hfd]
    decide
  · simp [viewFileLinesRun, viewFileLinesCore, hfd]
    decide
  · have h1 : ¬ ((995 : Int) < 1) := by decide
    have h2 : ¬ ((1005 : Int) < 995) := by decide
    have h3 : ¬ ((1005 : Int) - 995 + 1 > 100) := by decide
    simp only [viewFileLinesRun, viewFileLinesCore, hfd, hc, if_neg h1, if_neg h2,
      if_neg h3, hlen]
    rw [if_neg (by decide)]
    have hmin : min (1005 : Int) ((1000 : Nat) : Int) = (1000 : Int) := by decide
    have h95 : (995 : Int) - 1 = 994 := by decide
    rw [hmin, h95]
    have fuse : ∀ t : String,
        "\nLines " ++ (toString (995 : Int) ++ ("-" ++ (toString (1000 : Int) ++
          (" of " ++ (toString (1000 : Nat) ++ (":\n\n" ++ t)))))) =
        "\nLines 995-1000 of 1000:\n\n" ++ t := by
      intro t
      rw [show ("\nLines 995-1000 of 1000:\n\n" : String) =
        "\nLines " ++ (toString (995 : Int) ++ ("-" ++ (toString (1000 : Int) ++
          (" of " ++ (toString (1000 : Nat) ++ ":\n\n"))))) from by decide]
      simp only [String.append_assoc]
    simp only [String.append_assoc]
    rw [fuse]

/-- A 1000-line file: 1000 newline characters, read as 1000 lines. -/
def text1000 : String := String.mk (List.replicate 1000 '\n')

/-- A filesystem with the single 1000-line file `/w/f`. -/
def fs1000 : FS :=
  fun p => if p = "/w/f" then some (.file ⟨.ok 1000, .ok text1000⟩) else none

set_option maxRecDepth 40000 in
/-- Witness for C2: the 5–3 request on the concrete 1000-line file is the
range error, and the 995–1005 request is served clamped to 995–1000 of
1000. -/
theorem c2_witness :
    viewFileLinesRun env0 fs1000 "f" 5 3 = "[Error]: End line (3) must be >= start line (5)" ∧
    viewFileLinesRun env0 fs1000 "f" 995 1005 =
      "File: " ++ "/w/f" ++ "\nLines 995-1000 of 1000:\n\n" ++
        formatNumbered 995 (listSlice (readlines text1000) 994 1000) := by
  have h := c2_line_range_validation env0 fs1000 "f" "/w/f" ⟨.ok 1000, .ok text1000⟩
    (by rfl) (by rfl)
  exact ⟨h.2.2.2.1, h.2.2.2.2.2.2 text1000 rfl (by decide)⟩

/-- Claim C10: on an existing empty file (content reads back as the empty
string, hence `readlines` gives zero lines) every request that passes
range validation returns the start-exceeds-file-length error reporting a
total of 0 lines, and no request whatsoever is answered with file
content — every answer is an `[Error]: ...` string. -/
theorem c10_empty_file (env : Env) (fs : FS) (s : String) (r : String) (fd : FileData)
    (hr : r = resolveInput env s) (hfd : fs r = some (.file fd))
    (hc : fd.content = .ok "") :
    (∀ a b : Int, 1 ≤ a → a ≤ b → b - a + 1 ≤ 100 →
      viewFileLinesRun env fs s a b =
        "[Error]: Start line " ++ toString a ++ " exceeds file length (0 lines)") ∧
    (∀ a b : Int, ∃ t, viewFileLinesRun env fs s a b = "[Error]: " ++ t) := by
  subst hr
  have hre : readlines "" = [] := rfl
  constructor
  · intro a b ha hab hspan
    have h1 : ¬ (a < 1) := by omega
    have h2 : ¬ (b < a) := by omega
    have h3 : ¬ (b - a + 1 > 100) := by omega
    have h4 : a > ((List.length ([] : List String) : Nat) : Int) := by simp; omega
    simp only [viewFileLinesRun, viewFileLinesCore, hfd, hc, if_neg h1, if_neg h2,
      if_neg h3, hre, if_pos h4]
    simp only [String.append_assoc, List.length_nil]
    rw [show (" exceeds file length (" ++ (toString (0 : Nat) ++ " lines)") : String) =
      " exceeds file length (0 lines)" from by decide]
  · intro a b
    by_cases h1 : a < 1
    · refine ⟨"Start line must be >= 1, got " ++ toString a, ?_⟩
      simp only [viewFileLinesRun, viewFileLinesCore, hfd, if_pos h1]
      rw [show ("[Error]: Start line must be >= 1, got " : String) =
        "[Error]: " ++ "Start line must be >= 1, got " from by decide, String.append_assoc]
    · by_cases h2 : b < a
      · refine ⟨"End line (" ++ toString b ++ ") must be >= start line (" ++ toString a ++ ")", ?_⟩
        simp only [viewFileLinesRun, viewFileLinesCore, hfd, if_neg h1, if_pos h2]
        rw [show ("[Error]: End line (" : String) = "[Error]: " ++ "End line (" from by decide]
        simp only [String.append_assoc]
      · by_cases h3 : b - a + 1 > 100
        · refine ⟨"Too many lines requested (" ++ toString (b - a + 1) ++
            "). Maximum 100 lines per request.", ?_⟩
          simp only [viewFileLinesRun, viewFileLinesCore, hfd, if_neg h1, if_neg h2,
            if_pos h3]
          rw [show ("[Error]: Too many lines requested (" : String) =
            "[Error]: " ++ "Too many lines requested (" from by decide]
          simp only [String.append_assoc]
        · refine ⟨"Start line " ++ toString a ++ " exceeds file length (" ++
            toString (0 : Nat) ++ " lines)", ?_⟩
          have h4 : a > ((List.length ([] : List String) : Nat) : Int) := by simp; omega
          simp only [viewFileLinesRun, viewFileLinesCore, hfd, hc, if_neg h1, if_neg h2,
            if_neg h3, hre, if_pos h4]
          rw [show ("[Error]: Start line " : String) =
            "[Error]: " ++ "Start line " from by decide]
          simp only [String.append_assoc, List.length_nil]

/-- Claim C4: the Whole-File Viewer returns the full (replacement-decoded)
content of a file of exactly 100,000 bytes, and for 100,001 bytes or more
it returns the size-limit error pointing at `view_file_lines` instead of
any content. The strict check is `file_size > MAX_FILE_SIZE_BYTES` with
`MAX_FILE_SIZE_BYTES = 100_000`. -/
theorem c4_size_limit (env : Env) (fs : FS) (s : String) (r : String) (fd : FileData)
    (hr : r = resolveInput env s) (hfd : fs r = some (.file fd)) :
    (∀ c, fd.size = .ok 100000 → fd.content = .ok c →
      viewFileRun env fs s = "File: " ++ r ++ "\nSize: 100000 bytes\n\nContent:\n" ++ c) ∧
    (∀ n, fd.size = .ok n → 100001 ≤ n →
      viewFileRun env fs s = "[Error]: File is too large (" ++ toString n ++
        " bytes > 100000 bytes). Use view_file_lines for large files.") := by
  subst hr
  constructor
  · intro c hs hc
    simp only [viewFileRun, viewFileCore, hfd, hs, hc]
    rw [if_neg (by decide)]
    have fuse : ∀ t : String,
        "\nSize: " ++ (toString (100000 : Nat) ++ (" bytes\n\nContent:\n" ++ t)) =
        "\nSize: 100000 bytes\n\nContent:\n" ++ t := by
      intro t
      rw [show ("\nSize: 100000 bytes\n\nContent:\n" : String) =
        "\nSize: " ++ (toString (100000 : Nat) ++ " bytes\n\nContent:\n") from by decide]
      simp only [String.append_assoc]
    simp only [String.append_assoc]
    rw [fuse]
  · intro n hs hn
    simp only [viewFileRun, viewFileCore, hfd, hs]
    rw [if_pos (by omega)]

/-- Witness for C4: concrete files of 100,000 and 100,001 bytes. -/
theorem c4_witness :
    viewFileRun env0 (fun p => if p = "/w/g" then some (okFile 100000 "body") else none) "g" =
      "File: " ++ "/w/g" ++ "\nSize: 100000 bytes\n\nContent:\n" ++ "body" ∧
    viewFileRun env0 (fun p => if p = "/w/g" then some (okFile 100001 "body") else none) "g" =
      "[Error]: File is too large (" ++ toString (100001 : Nat) ++
        " bytes > 100000 bytes). Use view_file_lines for large files." := by
  constructor
  · exact (c4_size_limit env0 _ "g" "/w/g" ⟨.ok 100000, .ok "body"⟩ (by rfl) (by rfl)).1
      "body" rfl rfl
  · exact (c4_size_limit env0 _ "g" "/w/g" ⟨.ok 100001, .ok "body"⟩ (by rfl) (by rfl)).2
      100001 rfl (by decide)

/-- A filesystem with the single empty file `/w/e`. -/
def fsE : FS := fun p => if p = "/w/e" then some (.file ⟨.ok 0, .ok ""⟩) else none

/-- Every explicit file entry starts with `"File: "`, so it is never the
truncation notice. -/
theorem fileEntryLine_ne_trunc (p : String) (z : Except String Nat) :
    fileEntryLine p z ≠ truncNotice := by
  have key : ∀ x : String, "File: " ++ x ≠ truncNotice := by
    intro x h
    have h2 := congrArg String.data h
    rw [String.data_append] at h2
    rw [show "File: ".data = 'F' :: "ile: ".data from rfl] at h2
    rw [show truncNotice.data =
      '.' :: ".. (more files exist but limited to 50 for display)".data from rfl] at h2
    simp only [List.cons_append, List.cons.injEq] at h2
    exact absurd h2.1 (by decide)
  cases z with
  | ok n =>
    intro h
    exact key (p ++ " (" ++ toString n ++ " bytes)")
      (by simpa [fileEntryLine, String.append_assoc] using h)
  | error e =>
    intro h
    exact key p (by simpa [fileEntryLine] using h)

/-- Invariant of the `FileListingTool` loop: starting from at most 50
collected file lines, the loop ends with at most 50 file lines, or with
exactly 50 file lines followed by the single truncation notice. -/
theorem listFilesLoop_spec (dir : String) (es : List (String × FsNode))
    (acc : List String) (hlen : acc.length ≤ 50) (hfl : ∀ x ∈ acc, IsFileLine x) :
    (∃ fl, listFilesLoop dir es acc = fl ∧ fl.length ≤ 50 ∧ ∀ x ∈ fl, IsFileLine x) ∨
    (∃ fl, listFilesLoop dir es acc = fl ++ [truncNotice] ∧ fl.length = 50 ∧
      ∀ x ∈ fl, IsFileLine x) := by
  induction es generalizing acc with
  | nil => exact Or.inl ⟨acc, rfl, hlen, hfl⟩
  | cons e rest ih =>
    obtain ⟨n, node⟩ := e
    by_cases hcap : acc.length ≥ 50
    · right
      refine ⟨acc, ?_, by omega, hfl⟩
      simp [listFilesLoop, if_pos hcap]
    · cases node with
      | file fd =>
        have := ih (acc ++ [fileEntryLine (pyJoin dir n) fd.size])
          (by simp; omega)
          (by
            intro x hx
            rcases List.mem_append.mp hx with h | h
            · exact hfl x h
            · simp at h
              exact ⟨pyJoin dir n, fd.size, h⟩)
        simpa [listFilesLoop, if_neg hcap] using this
      | dir d =>
        have := ih acc hlen hfl
        simpa [listFilesLoop, if_neg hcap] using this

/-- If at least `51 - |acc|` regular files remain, the loop necessarily
caps out: it ends with exactly 50 lines plus the truncation notice. -/
theorem listFilesLoop_trunc (dir : String) (es : List (String × FsNode))
    (acc : List String) (hlen : acc.length ≤ 50) (hfl : ∀ x ∈ acc, IsFileLine x)
    (hmany : 51 ≤ acc.length + es.countP (fun e => isFileNode e.2)) :
    ∃ fl, listFilesLoop dir es acc = fl ++ [truncNotice] ∧ fl.length = 50 ∧
      ∀ x ∈ fl, IsFileLine x := by
  induction es generalizing acc with
  | nil => simp at hmany; omega
  | cons e rest ih =>
    obtain ⟨n, node⟩ := e
    by_cases hcap : acc.length ≥ 50
    · refine ⟨acc, ?_, by omega, hfl⟩
      simp [listFilesLoop, if_pos hcap]
    · cases node with
      | file fd =>
        have hcount : ((n, FsNode.file fd) :: rest).countP (fun e => isFileNode e.2) =
            rest.countP (fun e => isFileNode e.2) + 1 := by
          simp [List.countP_cons, isFileNode]
        have := ih (acc ++ [fileEntryLine (pyJoin dir n) fd.size])
          (by simp; omega)
          (by
            intro x hx
            rcases List.mem_append.mp hx with h | h
            · exact hfl x h
            · simp at h
              exact ⟨pyJoin dir n, fd.size, h⟩)
          (by rw [hcount] at hmany; simp; omega)
        simpa [listFilesLoop, if_neg hcap] using this
      | dir d =>
        have hcount : ((n, FsNode.dir d) :: rest).countP (fun e => isFileNode e.2) =
            rest.countP (fun e => isFileNode e.2) := by
          simp [List.countP_cons, isFileNode]
        have := ih acc hlen hfl (by rw [hcount] at hmany; exact hmany)
        simpa [listFilesLoop, if_neg hcap] using this

/-- With no regular file among the entries (and headroom in the
accumulator) the loop adds nothing. -/
theorem listFilesLoop_nofiles (dir : String) (es : List (String × FsNode))
    (acc : List String) (hlen : acc.length < 50)
    (hnone : es.countP (fun e => isFileNode e.2) = 0) :
    listFilesLoop dir es acc = acc := by
  induction es generalizing acc with
  | nil => rfl
  | cons e rest ih =>
    obtain ⟨n, node⟩ := e
    cases node with
    | file fd =>
      exfalso
      have hcount : ((n, FsNode.file fd) :: rest).countP (fun e => isFileNode e.2) =
          rest.countP (fun e => isFileNode e.2) + 1 := by
        simp [List.countP_cons, isFileNode]
      omega
    | dir d =>
      have hcount : ((n, FsNode.dir d) :: rest).countP (fun e => isFileNode e.2) =
          rest.countP (fun e => isFileNode e.2) := by
        simp [List.countP_cons, isFileNode]
      have hnone2 : rest.countP (fun e => isFileNode e.2) = 0 := by omega
      have hcap : ¬ (acc.length ≥ 50) := by omega
      simp [listFilesLoop, if_neg hcap, ih acc hlen hnone2]

/-- Claim C3: the File Lister never emits more than 50 explicit file
entries: its collected lines are at most 50 file-entry lines, or exactly
50 of them followed by one truncation notice (never a 51st entry, and the
notice — which no file-entry line equals — appears exactly once, at the
end). A directory holding at least 51 regular files always ends in the
truncation shape, and a directory with zero regular files makes the tool
return the distinct "no files found" message instead of an empty
listing. -/
theorem c3_file_lister_cap (env : Env) (fs : FS) (s : String) (r : String)
    (es : List (String × FsNode)) (hr : r = resolveInput env s)
    (hfd : fs r = some (.dir (.ok es))) :
    ((∃ fl, listFilesLoop r es [] = fl ∧ fl.length ≤ 50 ∧ ∀ x ∈ fl, IsFileLine x) ∨
     (∃ fl, listFilesLoop r es [] = fl ++ [truncNotice] ∧ fl.length = 50 ∧
       (∀ x ∈ fl, IsFileLine x) ∧ truncNotice ∉ fl)) ∧
    (51 ≤ es.countP (fun e => isFileNode e.2) →
      ∃ fl, listFilesLoop r es [] = fl ++ [truncNotice] ∧ fl.length = 50 ∧
        truncNotice ∉ fl ∧
        fileListingRun env fs s =
          "Files in " ++ r ++ ":\n" ++ String.intercalate "\n" (fl ++ [truncNotice])) ∧
    (es.countP (fun e => isFileNode e.2) = 0 →
      fileListingRun env fs s = "No files found in " ++ r) := by
  subst hr
  set r := resolveInput env s with hrdef
  have notin : ∀ fl : List String, (∀ x ∈ fl, IsFileLine x) → truncNotice ∉ fl := by
    intro fl hfl hmem
    obtain ⟨p, z, hz⟩ := hfl _ hmem
    exact fileEntryLine_ne_trunc p z hz.symm
  refine ⟨?_, fun hmany => ?_, fun hnone => ?_⟩
  · rcases listFilesLoop_spec r es [] (by simp) (by simp) with h | ⟨fl, h1, h2, h3⟩
    · exact Or.inl h
    · exact Or.inr ⟨fl, h1, h2, h3, notin fl h3⟩
  · obtain ⟨fl, h1, h2, h3⟩ := listFilesLoop_trunc r es [] (by simp) (by simp)
      (by simpa using hmany)
    refine ⟨fl, h1, h2, notin fl h3, ?_⟩
    have hne : ¬ (listFilesLoop r es []).isEmpty := by
      rw [h1]
      simp
    simp only [fileListingRun, fileListingCore, hfd]
    rw [if_neg (by simpa using hne), h1]
  · have h0 := listFilesLoop_nofiles r es [] (by simp) hnone
    simp only [fileListingRun, fileListingCore, hfd]
    rw [h0]
    simp

/-- A directory of 51 distinct regular files. -/
def es51 : List (String × FsNode) :=
  (List.range 51).map (fun i => ("f" ++ toString i, okFile 1 ""))

/-- Witness for C3: a concrete 51-file directory caps at 50 entries with
one truncation notice, and a concrete empty directory reports "no files
found". -/
theorem c3_witness :
    (∃ fl, listFilesLoop "/w/d" es51 [] = fl ++ [truncNotice] ∧ fl.length = 50 ∧
      truncNotice ∉ fl ∧
      fileListingRun env0 (fun p => if p = "/w/d" then some (.dir (.ok es51)) else none) "d" =
        "Files in " ++ "/w/d" ++ ":\n" ++ String.intercalate "\n" (fl ++ [truncNotice])) ∧
    fileListingRun env0 (fun p => if p = "/w/d" then some (.dir (.ok [])) else none) "d" =
      "No files found in " ++ "/w/d" := by
  constructor
  · exact (c3_file_lister_cap env0 _ "d" "/w/d" es51 (by rfl) (by rfl)).2.1 (by decide)
  · exact (c3_file_lister_cap env0 _ "d" "/w/d" [] (by rfl) (by rfl)).2.2 (by decide)

/-- Claim C8 (implicit): the truncation notice does not require a 51st
regular file — the cap check runs before the entry's type test, so a
directory of exactly 50 regular files followed by any non-file entry
still appends the notice, although only 50 regular files exist. -/
theorem c8_trunc_without_51st (env : Env) (fs : FS) (s : String) (r : String)
    (es50 : List (String × FsNode)) (d : String × FsNode) (hr : r = resolveInput env s)
    (hfd : fs r = some (.dir (.ok (es50 ++ [d]))))
    (h50 : es50.length = 50) (hall : ∀ e ∈ es50, isFileNode e.2 = true)
    (hd : isFileNode d.2 = false) :
    (es50 ++ [d]).countP (fun e => isFileNode e.2) = 50 ∧
    ∃ fl, listFilesLoop r (es50 ++ [d]) [] = fl ++ [truncNotice] ∧ fl.length = 50 := by
  subst hr
  constructor
  · rw [List.countP_append]
    have hc1 : es50.countP (fun e => isFileNode e.2) = 50 := by
      rw [List.countP_eq_length.mpr hall, h50]
    have hc2 : [d].countP (fun e => isFileNode e.2) = 0 := by
      simp [List.countP_cons, hd]
    omega
  · -- process the 50 files, then the cap fires on `d` regardless of its kind
    have key : ∀ (es : List (String × FsNode)) (acc : List String) (rest : List (String × FsNode)),
        (∀ e ∈ es, isFileNode e.2 = true) → acc.length + es.length ≤ 50 →
        ∃ acc2, listFilesLoop (resolveInput env s) (es ++ rest) acc =
            listFilesLoop (resolveInput env s) rest acc2 ∧
          acc2.length = acc.length + es.length := by
      intro es
      induction es with
      | nil => exact fun acc rest _ _ => ⟨acc, rfl, by simp⟩
      | cons e tail ih =>
        intro acc rest hallf hlen
        obtain ⟨n, node⟩ := e
        have hcap : ¬ (acc.length ≥ 50) := by simp at hlen; omega
        cases node with
        | file fd =>
          obtain ⟨acc2, ha, hl⟩ := ih (acc ++ [fileEntryLine (pyJoin (resolveInput env s) n) fd.size])
            rest (fun e he => hallf e (by simp [he])) (by simp at hlen ⊢; omega)
          refine ⟨acc2, ?_, by simp at hl ⊢; omega⟩
          simpa [listFilesLoop, if_neg hcap] using ha
        | dir dd =>
          exact absurd (hallf (n, .dir dd) (by simp)) (by simp [isFileNode])
    obtain ⟨acc2, ha, hl⟩ := key es50 [] [d] hall (by simp [h50])
    refine ⟨acc2, ?_, by simp [h50] at hl; omega⟩
    rw [ha]
    obtain ⟨nd, node⟩ := d
    have hcap : acc2.length ≥ 50 := by omega
    simp [listFilesLoop, if_pos hcap]

/-- A directory of exactly 50 distinct regular files. -/
def es50c : List (String × FsNode) :=
  (List.range 50).map (fun i => ("f" ++ toString i, okFile 1 ""))

/-- Witness for C8: 50 concrete files followed by a subdirectory still
produce the truncation notice, with only 50 regular files present. -/
theorem c8_witness :
    (es50c ++ [("sub", FsNode.dir (.ok []))]).countP (fun e => isFileNode e.2) = 50 ∧
    ∃ fl, listFilesLoop "/w/d"
        (es50c ++ [("sub", FsNode.dir (.ok []))]) [] = fl ++ [truncNotice] ∧
      fl.length = 50 := by
  exact c8_trunc_without_51st env0
    (fun p => if p = "/w/d" then some (.dir (.ok (es50c ++ [("sub", FsNode.dir (.ok []))]))) else none)
    "d" "/w/d" es50c ("sub", FsNode.dir (.ok [])) (by rfl) (by rfl)
    (by decide) (by decide) (by rfl)

/-- Strings with the same character data are equal. -/
theorem strExt {x y : String} (h : x.data = y.data) : x = y :=
  congrArg String.mk h

/-- `splitSlash` never returns the empty list of groups. -/
theorem splitSlash_ne_nil (x : List Char) : splitSlash x ≠ [] := by
  cases x with
  | nil => simp [splitSlash]
  | cons c rest =>
    by_cases hc : c = '/'
    · simp [splitSlash, hc]
    · simp only [splitSlash, if_neg hc]
      split <;> simp

/-- Appending a separator appends one empty component. -/
theorem splitSlash_append_slash (x : List Char) :
    splitSlash (x ++ ['/']) = splitSlash x ++ [[]] := by
  induction x with
  | nil => rfl
  | cons c rest ih =>
    by_cases hc : c = '/'
    · subst hc
      simp [splitSlash, ih]
    · obtain ⟨g, gs, hgs⟩ : ∃ g gs, splitSlash rest = g :: gs := by
        cases h : splitSlash rest with
        | nil => exact absurd h (splitSlash_ne_nil rest)
        | cons g gs => exact ⟨g, gs, rfl⟩
      simp [splitSlash, hc, ih, hgs]

/-- An empty trailing component is skipped by the normpath loop. -/
theorem normLoop_trailing_empty (i : Nat) (cs : List (List Char))
    (acc : List (List Char)) :
    normLoop i acc (cs ++ [[]]) = normLoop i acc cs := by
  induction cs generalizing acc with
  | nil => simp [normLoop]
  | cons c rest ih =>
    simp only [List.cons_append, normLoop]
    split
    · exact ih acc
    · split
      · exact ih _
      · split <;> exact ih _

/-- `normpath` ignores one trailing separator (for an absolute path that
does not already end in the separator). -/
theorem normpath_append_slash (s : String) (h1 : s.data.head? = some '/')
    (h2 : s.data.getLast? ≠ some '/') :
    normpath (s ++ "/") = normpath s := by
  obtain ⟨d2, t, hdata⟩ : ∃ d2 t, s.data = '/' :: d2 :: t := by
    cases hd : s.data with
    | nil => rw [hd] at h1; simp at h1
    | cons a rest =>
      rw [hd] at h1
      simp at h1
      cases hr : rest with
      | nil =>
        rw [hd, hr] at h2
        simp [h1] at h2
      | cons b t => exact ⟨b, t, by simp [hd, hr, h1]⟩
  have hne : s ≠ "" := by
    intro h
    rw [h] at hdata
    simp at hdata
  have hne2 : s ++ "/" ≠ "" := by
    intro h
    have := congrArg String.data h
    rw [String.data_append, hdata] at this
    simp at this
  have hdata2 : (s ++ "/").data = s.data ++ ['/'] := by
    rw [String.data_append]
  simp only [normpath, if_neg hne, if_neg hne2, hdata2, hdata]
  -- the prefix tests agree on `s` and `s ++ "/"`
  have hpre2 : (['/', '/'].isPrefixOf ('/' :: d2 :: (t ++ ['/']))) =
      (['/', '/'].isPrefixOf ('/' :: d2 :: t)) := by
    simp [List.isPrefixOf]
  have hpre3 : (['/', '/', '/'].isPrefixOf ('/' :: d2 :: (t ++ ['/']))) =
      (['/', '/', '/'].isPrefixOf ('/' :: d2 :: t)) := by
    cases t with
    | nil =>
      have hlast : d2 ≠ '/' := by
        rw [hdata] at h2
        simpa using h2
      simp [List.isPrefixOf, hlast]
      exact fun h => hlast h.symm
    | cons u t2 => simp [List.isPrefixOf]
  have hsplit : splitSlash ('/' :: d2 :: (t ++ ['/'])) =
      splitSlash ('/' :: d2 :: t) ++ [[]] := by
    have := splitSlash_append_slash ('/' :: d2 :: t)
    simpa using this
  simp only [List.cons_append, List.head?_cons, hpre2, hpre3, hsplit,
    normLoop_trailing_empty]

/-- Claim C9 (implicit): an input that sanitizes to the empty string (for
example consisting only of fence markers, backticks, newlines or
whitespace) normalizes to the process working directory — for any
canonical absolute `cwd`, `abspath(expanduser("")) = cwd` — rather than a
path-resolution error, so the directory tools then operate on the working
directory. -/
theorem c9_empty_input_is_cwd (env : Env) (fs : FS) (s : String)
    (hs : sanitize s = "") (hcanon : normpath env.cwd = env.cwd)
    (habs : env.cwd.data.head? = some '/') :
    resolveInput env s = env.cwd ∧
    directoryListingRun env fs s = directoryListingCore fs env.cwd ∧
    fileListingRun env fs s = fileListingCore fs env.cwd ∧
    treeRun env fs s = treeCore fs env.cwd := by
  have hmain : resolveInput env s = env.cwd := by
    unfold resolveInput
    rw [hs]
    have hexp : expanduser env.home "" = "" := rfl
    rw [hexp]
    unfold abspath
    rw [if_neg (by simp)]
    unfold pyJoin
    rw [if_neg (by simp)]
    have hcne : ¬ (env.cwd = "") := by
      intro h
      rw [h] at habs
      simp at habs
    by_cases hlast : env.cwd.data.getLast? = some '/'
    · rw [if_pos (by simp [hcne, hlast])]
      rw [String.append_empty]
      exact hcanon
    · rw [if_neg (by simp [hcne, hlast])]
      rw [String.append_empty]
      rw [normpath_append_slash env.cwd habs hlast]
      exact hcanon
  exact ⟨hmain, by rw [directoryListingRun, hmain], by rw [fileListingRun, hmain],
    by rw [treeRun, hmain]⟩

/-- Witness for C9: the pure fence artifact input resolves to `/w` and the
directory lister lists `/w`. -/
theorem c9_witness :
    resolveInput env0 "```\n```" = "/w" ∧
    directoryListingRun env0 (fun p => if p = "/w" then some (.dir (.ok [])) else none)
      "```\n```" =
      directoryListingCore (fun p => if p = "/w" then some (.dir (.ok [])) else none) "/w" := by
  have h := c9_empty_input_is_cwd env0
    (fun p => if p = "/w" then some (.dir (.ok [])) else none) "```\n```"
    (by decide) (by decide) (by decide)
  exact ⟨h.1, h.2.1⟩

/-- Witness for C10: a concrete in-range request on the concrete empty
file gets the 0-line error. -/
theorem c10_witness :
    viewFileLinesRun env0 fsE "e" 1 1 =
      "[Error]: Start line " ++ toString (1 : Int) ++ " exceeds file length (0 lines)" := by
  exact (c10_empty_file env0 fsE "e" "/w/e" ⟨.ok 0, .ok ""⟩ (by rfl) (by rfl) rfl).1 1 1
    (by decide) (by decide) (by decide)

/-- A nonempty string has nonempty data. -/
theorem data_ne_nil_of_ne_empty {s : String} (h : s ≠ "") : s.data ≠ [] :=
  fun hd => h (strExt (by rw [hd]))

/-- Joining one separator-free, nonempty segment onto a path that does not
end in the separator appends exactly `"/" ++ segment`: the data, the
separator count, nonemptiness and the not-slash-terminated invariant. -/
theorem pyJoin_segment (cur n : String) (hne : cur ≠ "")
    (hend : cur.data.getLast? ≠ some '/') (hn : n ≠ "") (hslash : '/' ∉ n.data) :
    (pyJoin cur n).data = cur.data ++ '/' :: n.data ∧
    countSep (pyJoin cur n) = countSep cur + 1 ∧
    pyJoin cur n ≠ "" ∧ (pyJoin cur n).data.getLast? ≠ some '/' := by
  obtain ⟨c, rest, hcr⟩ : ∃ c rest, n.data = c :: rest := by
    cases h : n.data with
    | nil => exact absurd h (data_ne_nil_of_ne_empty hn)
    | cons c rest => exact ⟨c, rest, rfl⟩
  have hcne : c ≠ '/' := by
    intro h
    rw [hcr] at hslash
    rw [h] at hslash
    simp at hslash
  have hj : pyJoin cur n = cur ++ "/" ++ n := by
    unfold pyJoin
    rw [if_neg (by rw [hcr]; simp [hcne]),
      if_neg (by simp [hne, hend])]
  have hdata : (pyJoin cur n).data = cur.data ++ '/' :: n.data := by
    rw [hj, String.data_append, String.data_append]
    simp
  refine ⟨hdata, ?_, ?_, ?_⟩
  · unfold countSep
    rw [hdata, List.count_append, List.count_cons]
    have h0 : n.data.count '/' = 0 := List.count_eq_zero.mpr hslash
    simp [h0]
  · intro h
    have := congrArg String.data h
    rw [hdata] at this
    simp at this
  · rw [List.getLast?_eq_head?_reverse, hdata, List.reverse_append, List.reverse_cons]
    obtain ⟨y, ys, hy⟩ : ∃ y ys, n.data.reverse = y :: ys := by
      cases h : n.data.reverse with
      | nil =>
        rw [hcr] at h
        simp at h
      | cons y ys => exact ⟨y, ys, rfl⟩
    have hymem : y ∈ n.data := by
      have : y ∈ n.data.reverse := by rw [hy]; simp
      simpa using this
    have hyne : y ≠ '/' := fun h => hslash (h ▸ hymem)
    rw [hy]
    simp [hyne]

/-- The smaller-than fact used to recurse into a directory entry. -/
theorem sizeOf_child_lt {n : String} {c : FsNode} {es : List (String × FsNode)}
    (h : (n, c) ∈ es) : sizeOf c < sizeOf (FsNode.dir (Except.ok es)) := by
  have h1 := List.sizeOf_lt_of_mem h
  simp at h1 ⊢
  omega

theorem namesOK_dir_inv {es : List (String × FsNode)}
    (h : NamesOK (.dir (.ok es))) :
    (∀ e ∈ es, (e : String × FsNode).1 ≠ "" ∧ '/' ∉ (e.1 : String).data) ∧
      NamesOKList es := by
  cases h with
  | dirOk a b => exact ⟨a, b⟩

theorem namesOKList_mem {es : List (String × FsNode)} {n : String} {c : FsNode}
    (h : NamesOKList es) (hm : (n, c) ∈ es) : NamesOK c := by
  revert h hm
  induction es with
  | nil =>
    intro h hm
    simp at hm
  | cons e rest ih =>
    intro h hm
    obtain ⟨n2, c2⟩ := e
    cases h with
    | cons hc hr =>
      rcases List.mem_cons.mp hm with he | hm2
      · have h2 : c = c2 := congrArg Prod.snd he
        rw [h2]
        exact hc
      · exact ih hr hm2

/-- Membership in the descent part of the walk comes from a surviving
subdirectory entry. -/
theorem mem_walkDescend {p : String} {es : List (String × FsNode)}
    {root : String} {base : Nat} (hp : p ∈ walkDescend es root base) :
    ∃ e ∈ es, (isDirNode e.2 && !excludeDirs.contains e.1) = true ∧
      p ∈ walkCollect e.2 (pyJoin root e.1) base := by
  induction es with
  | nil => simp [walkDescend] at hp
  | cons e rest ih =>
    obtain ⟨n, c⟩ := e
    rw [walkDescend] at hp
    rcases List.mem_append.mp hp with h | h
    · by_cases hc : (isDirNode c && !excludeDirs.contains n) = true
      · exact ⟨(n, c), by simp, hc, by rwa [if_pos hc] at h⟩
      · rw [if_neg hc] at h
        simp at h
    · obtain ⟨e2, hmem, hcond, hpw⟩ := ih h
      exact ⟨e2, by simp [hmem], hcond, hpw⟩

/-- Invariant of the walk: every collected path is the root joined with a
nonempty chain of at most `2 - current_depth` surviving (non-excluded,
separator-free, nonempty) directory names — provided the current root
path does not end in a separator, so that `root.count(os.sep)` really
measures its depth. -/
theorem walkCollect_segs (k : Nat) :
    ∀ node, sizeOf node ≤ k → ∀ cur base, NamesOK node → cur ≠ "" →
      cur.data.getLast? ≠ some '/' → base ≤ countSep cur →
      ∀ p ∈ walkCollect node cur base,
        ∃ segs : List String, segs ≠ [] ∧ (countSep cur - base) + segs.length ≤ 2 ∧
          p = segsJoin cur segs ∧
          ∀ n ∈ segs, n ∉ excludeDirs ∧ n ≠ "" ∧ '/' ∉ (n : String).data := by
  induction k with
  | zero =>
    intro node hsz
    exfalso
    cases node <;> simp at hsz
  | succ k ih =>
    intro node hsz cur base hnok hne hend hbase p hp
    cases node with
    | file d => simp [walkCollect] at hp
    | dir d =>
      cases d with
      | error e => simp [walkCollect] at hp
      | ok es =>
        rw [walkCollect] at hp
        by_cases hguard : countSep cur - base ≥ 2
        · rw [if_pos hguard] at hp
          simp at hp
        · rw [if_neg hguard] at hp
          obtain ⟨hnames, hlist⟩ := namesOK_dir_inv hnok
          rcases List.mem_append.mp hp with h | h
          · obtain ⟨e, hmem, hpe⟩ := List.mem_map.mp h
            have hmem2 : e ∈ es := List.mem_of_mem_filter hmem
            have hcond := List.of_mem_filter hmem
            simp only [Bool.and_eq_true, Bool.not_eq_eq_eq_not, Bool.not_true] at hcond
            have hnm := hnames e hmem2
            refine ⟨[e.1], by simp, by simp only [List.length_singleton]; omega,
              by simp [segsJoin, hpe], ?_⟩
            intro m hm
            rw [List.mem_singleton.mp hm]
            refine ⟨?_, hnm.1, hnm.2⟩
            intro hexcl
            have : excludeDirs.contains e.1 = true := List.elem_eq_true_of_mem hexcl
            rw [this] at hcond
            simp at hcond
          · obtain ⟨e, hmem, hcond, hpw⟩ := mem_walkDescend h
            obtain ⟨n, c⟩ := e
            simp only [Bool.and_eq_true] at hcond
            have hnm := hnames (n, c) hmem
            obtain ⟨hjd, hjc, hjne, hjend⟩ :=
              pyJoin_segment cur n hne hend hnm.1 hnm.2
            have hszc : sizeOf c ≤ k := by
              have := sizeOf_child_lt hmem
              omega
            have hnokc : NamesOK c := namesOKList_mem hlist hmem
            have hbase2 : base ≤ countSep (pyJoin cur n) := by omega
            obtain ⟨segs, hsne, hdep, hjoin, hprops⟩ :=
              ih c hszc (pyJoin cur n) base hnokc hjne hjend hbase2 p hpw
            refine ⟨n :: segs, by simp, ?_, ?_, ?_⟩
            · have : countSep (pyJoin cur n) - base = (countSep cur - base) + 1 := by
                omega
              rw [this] at hdep
              simp only [List.length_cons]
              omega
            · rw [hjoin]
              rfl
            · intro m hm
              rcases List.mem_cons.mp hm with hm1 | hm2
              · subst hm1
                refine ⟨?_, hnm.1, hnm.2⟩
                intro hexcl
                have hcontains : excludeDirs.contains m = true :=
                  List.elem_eq_true_of_mem hexcl
                rw [hcontains] at hcond
                simp at hcond
              · exact hprops m hm2

/-- The final shape of `normpath`'s return value is never empty. -/
theorem ifStr_ne_empty (out : List Char) :
    (if out = [] then "." else String.mk out) ≠ "" := by
  split
  · decide
  · next hout =>
    intro heq
    exact hout (by simpa using congrArg String.data heq)

/-- `posixpath.normpath` never returns the empty string. -/
theorem normpath_ne_empty (s : String) : normpath s ≠ "" := by
  unfold normpath
  by_cases h : s = ""
  · rw [if_pos h]
    decide
  · rw [if_neg h]
    dsimp only
    exact ifStr_ne_empty _

/-- Every normalized input is a nonempty string. -/
theorem resolveInput_ne_empty (env : Env) (s : String) : resolveInput env s ≠ "" := by
  unfold resolveInput abspath
  split <;> exact normpath_ne_empty _

/-- Claim C5, amended: for every root directory whose normalized path does
not end in the separator (all paths except the filesystem roots `/` and
`//` — for those, `root.count(os.sep) - base_depth` undercounts and the
walk goes one level deeper, see the counterexample), every path the
Directory Lister returns lies at most 2 genuine path segments below the
root and contains no excluded directory name; the output opens with the
`Root Directory:` header line, and when no subdirectory survives
filtering the tool reports that only the root was found. -/
theorem c5_walker_depth_exclusions (env : Env) (fs : FS) (dir : String) (r : String)
    (d : Except String (List (String × FsNode))) (hr : r = resolveInput env dir)
    (hfs : fs r = some (.dir d)) (hnok : NamesOK (.dir d))
    (hend : r.data.getLast? ≠ some '/') :
    (∀ p ∈ walkCollect (.dir d) r (countSep r), ∃ segs : List String,
      segs ≠ [] ∧ segs.length ≤ 2 ∧ p = segsJoin r segs ∧
      ∀ n ∈ segs, n ∉ excludeDirs ∧ n ≠ "" ∧ '/' ∉ (n : String).data) ∧
    (walkCollect (.dir d) r (countSep r) = [] →
      directoryListingRun env fs dir =
        "Only found the root directory: " ++ r ++ ". No subdirectories found.") ∧
    (walkCollect (.dir d) r (countSep r) ≠ [] →
      directoryListingRun env fs dir = String.intercalate "\n"
        (("Root Directory: " ++ r) ::
          (walkCollect (.dir d) r (countSep r)).map (fun p => "Directory: " ++ p))) := by
  have hne : r ≠ "" := by
    rw [hr]
    exact resolveInput_ne_empty env dir
  refine ⟨?_, ?_, ?_⟩
  · intro p hp
    obtain ⟨segs, h1, h2, h3, h4⟩ := walkCollect_segs (sizeOf (FsNode.dir d)) (.dir d)
      le_rfl r (countSep r) hnok hne hend le_rfl p hp
    exact ⟨segs, h1, by omega, h3, h4⟩
  · intro hw
    simp only [directoryListingRun, ← hr, directoryListingCore, hfs, hw]
    simp
  · intro hw
    simp only [directoryListingRun, ← hr, directoryListingCore, hfs]
    rw [if_neg]
    simp only [List.length_cons, List.length_map]
    have : (walkCollect (.dir d) r (countSep r)).length ≠ 0 := by
      simpa using hw
    omega

/-- The depth-3 tree `a/b/c` mounted at the filesystem root. -/
def deepTree : FsNode :=
  .dir (.ok [("a", .dir (.ok [("b", .dir (.ok [("c", .dir (.ok []))]))]))])

def fsDeep : FS := fun p => if p = "/" then some deepTree else none

/-- Counterexample to C5 as stated: at the root directory `/` the walk's
separator-count depth test undercounts by one, so the Directory Lister
returns `/a/b/c` — three path segments below the root — violating the
claimed 2-segment bound. -/
theorem c5_counterexample :
    resolveInput env0 "/" = "/" ∧
    walkCollect deepTree "/" (countSep "/") = ["/a", "/a/b", "/a/b/c"] ∧
    segsJoin "/" ["a", "b", "c"] = "/a/b/c" ∧
    (segsBelow "/" "/a/b/c").length = 3 ∧
    directoryListingRun env0 fsDeep "/" =
      "Root Directory: /\nDirectory: /a\nDirectory: /a/b\nDirectory: /a/b/c" := by
  refine ⟨by decide, by decide, by decide, by decide, by decide⟩

/-- A healthy two-subdirectory tree at `/r`, one entry excluded. -/
def treeW5 : FsNode := .dir (.ok [("a", .dir (.ok [])), (".git", .dir (.ok []))])

def fsW5 : FS := fun p => if p = "/r" then some treeW5 else none

/-- Witness for C5: on the concrete root `/r` the lister emits the header
and exactly the surviving subdirectory `/r/a` (the `.git` entry is
filtered out). -/
theorem c5_witness :
    directoryListingRun env0 fsW5 "/r" = String.intercalate "\n"
      (("Root Directory: " ++ "/r") ::
        (walkCollect (.dir (.ok [("a", .dir (.ok [])), (".git", .dir (.ok []))]))
            "/r" (countSep "/r")).map (fun p => "Directory: " ++ p)) := by
  exact (c5_walker_depth_exclusions env0 fsW5 "/r" "/r"
    (.ok [("a", .dir (.ok [])), (".git", .dir (.ok []))]) (by rfl) (by rfl)
    (NamesOK.dirOk (by decide)
      (NamesOKList.cons (NamesOK.dirOk (by decide) NamesOKList.nil)
        (NamesOKList.cons (NamesOK.dirOk (by decide) NamesOKList.nil) NamesOKList.nil)))
    (by decide)).2.2 (by decide)

/-! ### Lemmas about the sanitizer pipeline (for C6) -/

theorem lstripWS_append_ws (w y : List Char) (hw : ∀ c ∈ w, pyIsWS c = true) :
    lstripWS (w ++ y) = lstripWS y := by
  unfold lstripWS
  rw [List.dropWhile_append]
  rw [List.dropWhile_eq_nil_iff.mpr hw]
  simp

theorem rstripWS_append_ws (y w : List Char) (hw : ∀ c ∈ w, pyIsWS c = true) :
    rstripWS (y ++ w) = rstripWS y := by
  unfold rstripWS
  rw [List.reverse_append]
  have hnil : (w.reverse.dropWhile pyIsWS : List Char) = [] :=
    List.dropWhile_eq_nil_iff.mpr (by simpa using hw)
  rw [List.dropWhile_append, hnil]
  simp

theorem lstripWS_cons_ws (c : Char) (y : List Char) (hc : pyIsWS c = true) :
    lstripWS (c :: y) = lstripWS y :=
  lstripWS_append_ws [c] y (by simpa using hc)

theorem lstripWS_cons_nonws (c : Char) (y : List Char) (hc : pyIsWS c = false) :
    lstripWS (c :: y) = c :: y := by
  unfold lstripWS
  rw [List.dropWhile_cons]
  simp [hc]

theorem rstripWS_append_nonws (y : List Char) (c : Char) (hc : pyIsWS c = false) :
    rstripWS (y ++ [c]) = y ++ [c] := by
  unfold rstripWS
  rw [List.reverse_append]
  simp [List.dropWhile_cons, hc]

/-- Stripping leaves a sublist, so it cannot increase any count. -/
theorem count_lstripWS_le (l : List Char) (a : Char) :
    (lstripWS l).count a ≤ l.count a :=
  (List.dropWhile_sublist pyIsWS).count_le a

theorem count_rstripWS_le (l : List Char) (a : Char) :
    (rstripWS l).count a ≤ l.count a := by
  unfold rstripWS
  calc ((l.reverse.dropWhile pyIsWS).reverse).count a
      = (l.reverse.dropWhile pyIsWS).count a := List.count_reverse a _
    _ ≤ l.reverse.count a := (List.dropWhile_sublist pyIsWS).count_le a
    _ = l.count a := List.count_reverse a l

theorem count_stripWS_le (l : List Char) (a : Char) :
    (stripWS l).count a ≤ l.count a :=
  le_trans (count_rstripWS_le (lstripWS l) a) (count_lstripWS_le l a)

/-- A fence prefix carries three backticks. -/
theorem count_btick_of_fence_prefix {l : List Char}
    (h : fenceChars.isPrefixOf l = true) : 3 ≤ l.count btick := by
  rw [List.isPrefixOf_iff_prefix] at h
  obtain ⟨r, hr⟩ := h
  rw [← hr, List.count_append]
  have : fenceChars.count btick = 3 := by decide
  omega

theorem count_btick_of_fence_suffix {l : List Char}
    (h : fenceChars.isSuffixOf l = true) : 3 ≤ l.count btick := by
  rw [List.isSuffixOf_iff_suffix] at h
  obtain ⟨r, hr⟩ := h
  rw [← hr, List.count_append]
  have : fenceChars.count btick = 3 := by decide
  omega

/-- On a backtick-free string the fence regex matches nothing. -/
theorem stripFences_of_no_btick {l : List Char} (h : l.count btick = 0) :
    stripFences l = l := by
  unfold stripFences
  have hpre : ¬ (fenceChars.isPrefixOf l = true) := by
    intro hp
    have := count_btick_of_fence_prefix hp
    omega
  rw [if_neg hpre]
  have hsuf : ¬ (fenceChars.isSuffixOf (rstripWS l) = true) := by
    intro hs
    have h1 := count_btick_of_fence_suffix hs
    have h2 := count_rstripWS_le l btick
    omega
  rw [if_neg hsuf]

theorem dropNlBticks_append (x y : List Char) :
    dropNlBticks (x ++ y) = dropNlBticks x ++ dropNlBticks y :=
  List.filter_append x y

theorem dropNlBticks_ws (w : List Char) (hw : ∀ c ∈ w, pyIsWS c = true) :
    ∀ c ∈ dropNlBticks w, pyIsWS c = true := by
  intro c hc
  exact hw c (List.mem_of_mem_filter hc)

/-- Dropping the outer whitespace of a string before deleting newlines and
backticks changes nothing once the result is stripped: the outer
whitespace survives the deletion as whitespace and is stripped then. -/
theorem stripWS_dropNlBticks_stripWS (x : List Char) :
    stripWS (dropNlBticks (stripWS x)) = stripWS (dropNlBticks x) := by
  have hmain : ∀ (A B C : List Char), (∀ c ∈ A, pyIsWS c = true) →
      (∀ c ∈ C, pyIsWS c = true) → stripWS (A ++ B ++ C) = stripWS B := by
    intro A B C hA hC
    unfold stripWS
    rw [List.append_assoc, lstripWS_append_ws A (B ++ C) hA]
    unfold lstripWS
    rw [List.dropWhile_append]
    by_cases hB : (B.dropWhile pyIsWS).isEmpty = true
    · rw [if_pos hB]
      rw [show (C.dropWhile pyIsWS : List Char) = [] from
        List.dropWhile_eq_nil_iff.mpr hC]
      rw [show (B.dropWhile pyIsWS : List Char) = [] from by
        simpa using hB]
    · rw [if_neg hB]
      exact rstripWS_append_ws _ C hC
  -- decompose x into leading whitespace, its strip, trailing whitespace
  have hdecomp : x = x.takeWhile pyIsWS ++ stripWS x ++
      ((lstripWS x).reverse.takeWhile pyIsWS).reverse := by
    have h1 : x = x.takeWhile pyIsWS ++ lstripWS x :=
      (List.takeWhile_append_dropWhile pyIsWS x).symm
    have h2 : lstripWS x = stripWS x ++ ((lstripWS x).reverse.takeWhile pyIsWS).reverse := by
      have h3 : (lstripWS x).reverse =
          (lstripWS x).reverse.takeWhile pyIsWS ++ (lstripWS x).reverse.dropWhile pyIsWS :=
        (List.takeWhile_append_dropWhile pyIsWS _).symm
      calc lstripWS x = (lstripWS x).reverse.reverse := by simp
        _ = ((lstripWS x).reverse.takeWhile pyIsWS ++
              (lstripWS x).reverse.dropWhile pyIsWS).reverse := by rw [← h3]
        _ = stripWS x ++ ((lstripWS x).reverse.takeWhile pyIsWS).reverse := by
              rw [List.reverse_append]
              rfl
    rw [List.append_assoc, ← h2]
    exact h1
  conv_rhs => rw [hdecomp, dropNlBticks_append, dropNlBticks_append]
  exact (hmain _ _ _ (dropNlBticks_ws _ (fun c hc => List.mem_takeWhile_imp hc))
    (dropNlBticks_ws _ (fun c hc => by
      have := List.mem_takeWhile_imp (show c ∈ _ from by
        simpa using List.mem_reverse.mp hc)
      exact this))).symm

theorem stripWS_cons_ws (c : Char) (y : List Char) (hc : pyIsWS c = true) :
    stripWS (c :: y) = stripWS y := by
  unfold stripWS
  rw [lstripWS_cons_ws c y hc]

theorem stripWS_append_ws (y w : List Char) (hw : ∀ c ∈ w, pyIsWS c = true) :
    stripWS (y ++ w) = stripWS y := by
  unfold stripWS lstripWS
  rw [List.dropWhile_append]
  by_cases hY : (y.dropWhile pyIsWS).isEmpty = true
  · rw [if_pos hY]
    rw [show (w.dropWhile pyIsWS : List Char) = [] from List.dropWhile_eq_nil_iff.mpr hw]
    rw [show (y.dropWhile pyIsWS : List Char) = [] from by simpa using hY]
  · rw [if_neg hY]
    exact rstripWS_append_ws _ w hw

/-- Wrapping a path in newlines does not change its sanitization. -/
theorem sanitize_nlWrap (p : String) : sanitize (nlWrap p) = sanitize p := by
  unfold sanitize nlWrap
  have hd : (("\n" ++ p) ++ "\n").data = '\n' :: (p.data ++ ['\n']) := by
    rw [String.data_append, String.data_append]
    rfl
  rw [hd]
  rw [stripWS_cons_ws '\n' _ (by decide), stripWS_append_ws _ ['\n'] (by decide)]

/-- Wrapping a backtick-free path in single backticks does not change its
sanitization: the wrap is no fence, and the added backticks are deleted
by the `[\n`]` substitution anyway. -/
theorem sanitize_btickWrap (p : String) (hb : p.data.count btick = 0) :
    sanitize (btickWrap p) = sanitize p := by
  unfold sanitize btickWrap
  have hd : (("`" ++ p) ++ "`").data = btick :: p.data ++ [btick] := by
    rw [String.data_append, String.data_append]
    rw [show ("`" : String).data = [btick] from by decide]
    simp
  rw [hd]
  have hbw : pyIsWS btick = false := by decide
  have hcount : (btick :: p.data ++ [btick]).count btick = 2 := by
    rw [show btick :: p.data ++ [btick] = (btick :: p.data) ++ [btick] from by simp]
    rw [List.count_append, List.count_cons]
    simp [hb]
  have hrs : rstripWS (btick :: p.data ++ [btick]) = btick :: p.data ++ [btick] :=
    rstripWS_append_nonws _ _ hbw
  have h1 : stripWS (btick :: p.data ++ [btick]) = btick :: p.data ++ [btick] := by
    unfold stripWS
    rw [List.cons_append, lstripWS_cons_nonws _ _ hbw, ← List.cons_append]
    exact hrs
  rw [h1]
  have h2 : stripFences (btick :: p.data ++ [btick]) = btick :: p.data ++ [btick] := by
    unfold stripFences
    dsimp only
    have hpre : ¬ (fenceChars.isPrefixOf (btick :: p.data ++ [btick]) = true) := by
      intro hp
      have := count_btick_of_fence_prefix hp
      omega
    rw [if_neg hpre]
    rw [hrs]
    have hsuf : ¬ (fenceChars.isSuffixOf (btick :: p.data ++ [btick]) = true) := by
      intro hs
      have := count_btick_of_fence_suffix hs
      omega
    rw [if_neg hsuf]
  rw [h2]
  have h3 : dropNlBticks (btick :: p.data ++ [btick]) = dropNlBticks p.data := by
    unfold dropNlBticks
    rw [List.filter_append, List.filter_cons]
    simp
  rw [h3]
  have h4 : stripFences (stripWS p.data) = stripWS p.data := by
    apply stripFences_of_no_btick
    have := count_stripWS_le p.data btick
    omega
  rw [h4]
  exact (congrArg String.mk (stripWS_dropNlBticks_stripWS p.data)).symm

/-- Wrapping a backtick-free path in a fenced code block — optionally with
one of the recognised language hints — does not change its sanitization. -/
theorem sanitize_fenceWrap (h p : String) (hh : h ∈ hintStrings)
    (hb : p.data.count btick = 0) : sanitize (fenceWrap h p) = sanitize p := by
  unfold sanitize fenceWrap
  have hfd : ("```" : String).data = fenceChars := by decide
  have hnl : ("\n```" : String).data = '\n' :: fenceChars := by decide
  have hd : (((("```" ++ h) ++ "\n") ++ p) ++ "\n```").data =
      fenceChars ++ (h.data ++ ('\n' :: (p.data ++ ('\n' :: fenceChars)))) := by
    rw [String.data_append, String.data_append, String.data_append, String.data_append]
    rw [hfd, hnl]
    rw [show ("\n" : String).data = ['\n'] from rfl]
    simp
  rw [show ("```" ++ h ++ "\n" ++ p ++ "\n```" : String) =
    (((("```" ++ h) ++ "\n") ++ p) ++ "\n```") from rfl, hd]
  set X := h.data ++ ('\n' :: (p.data ++ ('\n' :: fenceChars))) with hX
  -- the wrapped word begins and ends with a backtick, so `strip` is a no-op
  have hW1 : stripWS (fenceChars ++ X) = fenceChars ++ X := by
    unfold stripWS
    rw [show (fenceChars ++ X : List Char) = btick :: (btick :: btick :: X) from rfl]
    rw [lstripWS_cons_nonws _ _ (by decide)]
    rw [show btick :: (btick :: btick :: X) =
      (btick :: btick :: btick :: (h.data ++ ('\n' :: p.data ++ ['\n', btick, btick]))) ++ [btick] from by
      rw [hX]
      simp [fenceChars]]
    exact rstripWS_append_nonws _ _ (by decide)
  rw [hW1]
  -- the fence regex: the leading branch consumes the fence, the hint, the newline
  have hpre : fenceChars.isPrefixOf (fenceChars ++ X) = true := by
    rw [List.isPrefixOf_iff_prefix]
    exact List.prefix_append _ _
  have hdrop : (fenceChars ++ X).drop 3 = X := by
    rw [show (3 : Nat) = fenceChars.length from rfl]
    exact List.drop_left _ _
  have hhint : dropHint X = '\n' :: (p.data ++ ('\n' :: fenceChars)) := by
    rw [hX]
    have e1 : ("json" : String).data = ['j', 's', 'o', 'n'] := rfl
    have e2 : ("python" : String).data = ['p', 'y', 't', 'h', 'o', 'n'] := rfl
    have e3 : ("text" : String).data = ['t', 'e', 'x', 't'] := rfl
    have e4 : ("sh" : String).data = ['s', 'h'] := rfl
    have e5 : ("bash" : String).data = ['b', 'a', 's', 'h'] := rfl
    have e6 : ("plaintext" : String).data = ['p', 'l', 'a', 'i', 'n', 't', 'e', 'x', 't'] := rfl
    simp only [hintStrings, List.mem_cons, List.mem_singleton] at hh
    rcases hh with rfl | rfl | rfl | rfl | rfl | rfl | rfl | hh
    · simp +decide [dropHint, langHints, List.find?, List.isPrefixOf, e1, e2, e3, e4, e5, e6]
    · simp +decide [dropHint, langHints, List.find?, List.isPrefixOf, e1, e2, e3, e4, e5, e6]
    · simp +decide [dropHint, langHints, List.find?, List.isPrefixOf, e1, e2, e3, e4, e5, e6]
    · simp +decide [dropHint, langHints, List.find?, List.isPrefixOf, e1, e2, e3, e4, e5, e6]
    · simp +decide [dropHint, langHints, List.find?, List.isPrefixOf, e1, e2, e3, e4, e5, e6]
    · simp +decide [dropHint, langHints, List.find?, List.isPrefixOf, e1, e2, e3, e4, e5, e6]
    · simp +decide [dropHint, langHints, List.find?, List.isPrefixOf, e1, e2, e3, e4, e5, e6]
    · simp at hh
  have hafterA : lstripWS (dropHint ((fenceChars ++ X).drop 3)) =
      lstripWS (p.data ++ ('\n' :: fenceChars)) := by
    rw [hdrop, hhint, lstripWS_cons_ws _ _ (by decide)]
  have hfence : stripFences (fenceChars ++ X) = stripWS p.data := by
    unfold stripFences
    dsimp only
    rw [if_pos hpre, hafterA]
    unfold lstripWS
    rw [List.dropWhile_append]
    by_cases hP : (p.data.dropWhile pyIsWS).isEmpty = true
    · rw [if_pos hP]
      rw [show (('\n' :: fenceChars).dropWhile pyIsWS : List Char) = fenceChars from by decide]
      rw [show (rstripWS fenceChars : List Char) = fenceChars from by decide]
      rw [if_pos (by decide)]
      rw [show (fenceChars.take (fenceChars.length - 3) : List Char) = [] from by decide]
      rw [show (rstripWS ([] : List Char)) = [] from rfl]
      unfold stripWS lstripWS
      rw [show (p.data.dropWhile pyIsWS : List Char) = [] from by simpa using hP]
      rfl
    · rw [if_neg hP]
      have hshape : (p.data.dropWhile pyIsWS ++ '\n' :: fenceChars : List Char) =
          ((p.data.dropWhile pyIsWS ++ ['\n', btick, btick]) ++ [btick]) := by
        simp [fenceChars]
      rw [hshape, rstripWS_append_nonws _ _ (by decide)]
      have hsuf : fenceChars.isSuffixOf
          ((p.data.dropWhile pyIsWS ++ ['\n', btick, btick]) ++ [btick]) = true := by
        rw [List.isSuffixOf_iff_suffix]
        have hre0 : (p.data.dropWhile pyIsWS ++ ['\n', btick, btick]) ++ [btick] =
            (p.data.dropWhile pyIsWS ++ ['\n']) ++ fenceChars := by
          simp [fenceChars]
        rw [hre0]
        exact List.suffix_append _ _
      rw [if_pos hsuf]
      have hlen : ((p.data.dropWhile pyIsWS ++ ['\n', btick, btick]) ++ [btick]).length - 3 =
          (p.data.dropWhile pyIsWS ++ ['\n']).length := by
        simp
      have hre : (p.data.dropWhile pyIsWS ++ ['\n', btick, btick]) ++ [btick] =
          (p.data.dropWhile pyIsWS ++ ['\n']) ++ fenceChars := by
        simp [fenceChars]
      rw [hlen, hre, List.take_left]
      rw [rstripWS_append_ws _ ['\n'] (by decide)]
      rfl
  rw [hfence]
  have h4 : stripFences (stripWS p.data) = stripWS p.data := by
    apply stripFences_of_no_btick
    have := count_stripWS_le p.data btick
    omega
  rw [h4]

/-- Claim C6, amended: for every path string that contains no backtick
character, wrapping it in a fenced code block (with any recognised
language hint or none), in single backticks, or in newlines leaves the
sanitized-and-normalized path unchanged. (For strings that themselves
contain backticks the equality can fail — see the counterexample — since
an inner fence of the path merges with the wrapper and the regex then
consumes a language-hint word out of the path itself.) -/
theorem c6_wrap_invariance (env : Env) (p h : String) (hh : h ∈ hintStrings)
    (hb : btick ∉ p.data) :
    resolveInput env (fenceWrap h p) = resolveInput env p ∧
    resolveInput env (btickWrap p) = resolveInput env p ∧
    resolveInput env (nlWrap p) = resolveInput env p := by
  have hc : p.data.count btick = 0 := List.count_eq_zero.mpr hb
  refine ⟨?_, ?_, ?_⟩
  · unfold resolveInput
    rw [sanitize_fenceWrap h p hh hc]
  · unfold resolveInput
    rw [sanitize_btickWrap p hc]
  · unfold resolveInput
    rw [sanitize_nlWrap p]

/-- Counterexample to C6 as stated: for the path string `"```json x"`
(which itself begins with a fence marker), the fence-wrapped version
sanitizes to `"json x"` while the unwrapped version sanitizes to `"x"` —
the two normalize to different absolute paths. -/
theorem c6_counterexample :
    sanitize "```json x" = "x" ∧
    sanitize (fenceWrap "" "```json x") = "json x" ∧
    resolveInput env0 (fenceWrap "" "```json x") ≠ resolveInput env0 "```json x" := by
  refine ⟨by decide, by decide, by decide⟩

/-- Witness for C6: the concrete backtick-free path `/etc` survives all
three wrappings. -/
theorem c6_witness :
    resolveInput env0 (fenceWrap "python" "/etc") = resolveInput env0 "/etc" ∧
    resolveInput env0 (btickWrap "/etc") = resolveInput env0 "/etc" ∧
    resolveInput env0 (nlWrap "/etc") = resolveInput env0 "/etc" :=
  c6_wrap_invariance env0 "/etc" "python" (by decide) (by decide)

/-! ### Lemmas about sorting and entry lookup (for C7) -/

theorem lexLe_trans : ∀ {a b c : List Char},
    lexLe a b = true → lexLe b c = true → lexLe a c = true := by
  intro a
  induction a with
  | nil => intro b c _ _; rfl
  | cons x xs ih =>
    intro b c hab hbc
    cases b with
    | nil => simp [lexLe] at hab
    | cons y ys =>
      cases c with
      | nil => simp [lexLe] at hbc
      | cons z zs =>
        simp only [lexLe] at hab hbc ⊢
        by_cases h1 : x.toNat < y.toNat <;> by_cases h2 : y.toNat < z.toNat
        · rw [if_pos (by omega)]
        · rw [if_neg h2] at hbc
          by_cases h3 : y.toNat = z.toNat
          · rw [if_pos (by omega)]
          · rw [if_neg h3] at hbc
            simp at hbc
        · rw [if_neg h1] at hab
          by_cases h4 : x.toNat = y.toNat
          · rw [if_pos (by omega)]
          · rw [if_neg h4] at hab
            simp at hab
        · rw [if_neg h1] at hab
          rw [if_neg h2] at hbc
          by_cases h4 : x.toNat = y.toNat
          · rw [if_pos h4] at hab
            by_cases h3 : y.toNat = z.toNat
            · rw [if_pos h3] at hbc
              rw [if_neg (by omega), if_pos (by omega)]
              exact ih hab hbc
            · rw [if_neg h3] at hbc
              simp at hbc
          · rw [if_neg h4] at hab
            simp at hab

theorem lexLe_total (a b : List Char) : lexLe a b = true ∨ lexLe b a = true := by
  induction a generalizing b with
  | nil => exact Or.inl rfl
  | cons x xs ih =>
    cases b with
    | nil => exact Or.inr rfl
    | cons y ys =>
      simp only [lexLe]
      by_cases h1 : x.toNat < y.toNat
      · exact Or.inl (by rw [if_pos h1])
      · by_cases h2 : x.toNat = y.toNat
        · rcases ih ys with h | h
          · exact Or.inl (by rw [if_neg h1, if_pos h2]; exact h)
          · exact Or.inr (by rw [if_neg (by omega), if_pos (by omega)]; exact h)
        · exact Or.inr (by rw [if_pos (by omega)])

theorem lexLe_antisymm : ∀ {a b : List Char},
    lexLe a b = true → lexLe b a = true → a = b := by
  intro a
  induction a with
  | nil =>
    intro b _ hba
    cases b with
    | nil => rfl
    | cons y ys => simp [lexLe] at hba
  | cons x xs ih =>
    intro b hab hba
    cases b with
    | nil => simp [lexLe] at hab
    | cons y ys =>
      simp only [lexLe] at hab hba
      by_cases h1 : x.toNat < y.toNat
      · rw [if_neg (by omega), if_neg (by omega)] at hba
        simp at hba
      · by_cases h2 : x.toNat = y.toNat
        · rw [if_neg h1, if_pos h2] at hab
          rw [if_neg (by omega), if_pos (by omega)] at hba
          have hx : x = y := Char.eq_of_val_eq (UInt32.ext h2)
          rw [hx, ih hab hba]
        · rw [if_neg h1, if_neg h2] at hab
          simp at hab

theorem strLeb_trans {a b c : String} (h1 : strLeb a b = true)
    (h2 : strLeb b c = true) : strLeb a c = true :=
  lexLe_trans h1 h2

theorem strLeb_total (a b : String) : strLeb a b = true ∨ strLeb b a = true :=
  lexLe_total a.data b.data

theorem strLeb_antisymm {a b : String} (h1 : strLeb a b = true)
    (h2 : strLeb b a = true) : a = b :=
  strExt (lexLe_antisymm h1 h2)

instance : IsAntisymm String (fun a b => strLeb a b = true) :=
  ⟨fun _ _ => strLeb_antisymm⟩

theorem insertStr_perm (x : String) (l : List String) :
    (insertStr x l).Perm (x :: l) := by
  induction l with
  | nil => exact List.Perm.refl _
  | cons y ys ih =>
    unfold insertStr
    by_cases h : strLeb x y = true
    · rw [if_pos h]
    · rw [if_neg h]
      exact (List.Perm.cons y ih).trans (List.Perm.swap x y ys)

theorem sortStrs_perm (l : List String) : (sortStrs l).Perm l := by
  induction l with
  | nil => exact List.Perm.refl _
  | cons x xs ih =>
    exact (insertStr_perm x _).trans (List.Perm.cons x ih)

theorem insertStr_sorted (x : String) (l : List String)
    (hl : List.Pairwise (fun a b => strLeb a b = true) l) :
    List.Pairwise (fun a b => strLeb a b = true) (insertStr x l) := by
  induction l with
  | nil => simp [insertStr]
  | cons y ys ih =>
    unfold insertStr
    by_cases h : strLeb x y = true
    · rw [if_pos h]
      refine List.Pairwise.cons ?_ hl
      intro z hz
      rcases List.mem_cons.mp hz with rfl | hz2
      · exact h
      · exact strLeb_trans h ((List.pairwise_cons.mp hl).1 z hz2)
    · rw [if_neg h]
      have hyx : strLeb y x = true := by
        rcases strLeb_total x y with h2 | h2
        · exact absurd h2 h
        · exact h2
      obtain ⟨hy, hys⟩ := List.pairwise_cons.mp hl
      refine List.Pairwise.cons ?_ (ih hys)
      intro z hz
      have hz2 := (insertStr_perm x ys).mem_iff.mp hz
      rcases List.mem_cons.mp hz2 with rfl | hz3
      · exact hyx
      · exact hy z hz3

theorem sortStrs_sorted (l : List String) :
    List.Pairwise (fun a b => strLeb a b = true) (sortStrs l) := by
  induction l with
  | nil => simp [sortStrs]
  | cons x xs ih => exact insertStr_sorted x _ ih

/-- Two sorts of permutation-equal name lists agree: the sorted
rearrangement of a multiset of strings is unique. -/
theorem sortStrs_eq_of_perm {l₁ l₂ : List String} (h : l₁.Perm l₂) :
    sortStrs l₁ = sortStrs l₂ := by
  refine List.eq_of_perm_of_sorted ?_ (sortStrs_sorted l₁) (sortStrs_sorted l₂)
  exact ((sortStrs_perm l₁).trans h).trans (sortStrs_perm l₂).symm

/-- Entry lookup is `find?` followed by the second projection. -/
theorem findEntry_eq (es : List (String × FsNode)) (i : String) :
    findEntry es i = (es.find? (fun e => e.1 == i)).map (fun e => e.2) := by
  unfold findEntry
  cases es.find? (fun e => e.1 == i) <;> rfl

/-- Lookup at the head entry's own name hits the head. -/
theorem findEntry_cons_self {i : String} {c0 : FsNode} {r : List (String × FsNode)} :
    findEntry ((i, c0) :: r) i = some c0 := by
  rw [findEntry_eq, List.find?_cons_of_pos _ (by simp)]
  rfl

/-- Lookup skips a head entry with a different name. -/
theorem findEntry_cons_ne {n i : String} {c0 : FsNode} {r : List (String × FsNode)}
    (hn : ¬ n = i) : findEntry ((n, c0) :: r) i = findEntry r i := by
  rw [findEntry_eq, findEntry_eq, List.find?_cons_of_neg _ (by simp [hn])]

/-- Lookup fails exactly when no entry bears the name. -/
theorem findEntry_eq_none {es : List (String × FsNode)} {i : String} :
    findEntry es i = none ↔ ∀ p ∈ es, (p : String × FsNode).1 ≠ i := by
  rw [findEntry_eq, Option.map_eq_none', List.find?_eq_none]
  constructor
  · intro h p hp
    simpa using h p hp
  · intro h p hp
    simpa using h p hp

/-- A successful lookup exhibits a listed entry with that name. -/
theorem findEntry_some_mem {es : List (String × FsNode)} {i : String} {c : FsNode}
    (h : findEntry es i = some c) : (i, c) ∈ es := by
  rw [findEntry_eq] at h
  obtain ⟨e, he, hec⟩ := Option.map_eq_some'.mp h
  have hm := List.mem_of_find?_eq_some he
  have hb := List.find?_some he
  obtain ⟨e1, e2⟩ := e
  have hb2 : e1 = i := by simpa using hb
  have hc2 : e2 = c := hec
  subst hb2
  subst hc2
  exact hm

/-- On a listing without repeated names, lookup finds any listed entry. -/
theorem findEntry_of_mem : ∀ {es : List (String × FsNode)} {i : String} {c : FsNode},
    nodupKeys (es.map (fun e => e.1)) = true → (i, c) ∈ es → findEntry es i = some c := by
  intro es
  induction es with
  | nil =>
    intro i c _ hm
    cases hm
  | cons e r ih =>
    intro i c hnd hm
    obtain ⟨n, c0⟩ := e
    simp only [List.map_cons, nodupKeys, Bool.and_eq_true, Bool.not_eq_true'] at hnd
    rcases List.mem_cons.mp hm with he | he
    · rw [Prod.mk.injEq] at he
      obtain ⟨h1, h2⟩ := he
      subst h1
      subst h2
      exact findEntry_cons_self
    · by_cases hn : n = i
      · exfalso
        subst hn
        have hmem : n ∈ r.map (fun e => e.1) := List.mem_map.mpr ⟨(n, c), he, rfl⟩
        have hcont : (r.map (fun e => e.1)).contains n = true := by simpa using hmem
        rw [hnd.1] at hcont
        cases hcont
      · rw [findEntry_cons_ne hn]
        exact ih hnd.2 he

/-- The executable no-repeated-names check agrees with `List.Nodup`. -/
theorem nodupKeys_iff_nodup : ∀ l : List String, nodupKeys l = true ↔ l.Nodup := by
  intro l
  induction l with
  | nil => simp [nodupKeys]
  | cons x xs ih =>
    simp only [nodupKeys, Bool.and_eq_true, Bool.not_eq_true', List.nodup_cons, ih]
    constructor
    · rintro ⟨h1, h2⟩
      refine ⟨fun hm => ?_, h2⟩
      have hcont : xs.contains x = true := by simpa using hm
      rw [h1] at hcont
      cases hcont
    · rintro ⟨h1, h2⟩
      refine ⟨?_, h2⟩
      cases hcb : xs.contains x with
      | false => rfl
      | true => exact absurd (by simpa using hcb) h1

/-- A pointwise shuffle of two listings preserves the name sequence. -/
theorem SL_keys : ∀ {es₁ es₂ : List (String × FsNode)}, ShuffleList es₁ es₂ →
    es₁.map (fun e => e.1) = es₂.map (fun e => e.1) := by
  intro es₁
  induction es₁ with
  | nil =>
    intro es₂ h
    cases h
    rfl
  | cons e r ih =>
    intro es₂ h
    obtain ⟨n, c⟩ := e
    cases h with
    | cons hc hr =>
      simp only [List.map_cons]
      rw [ih hr]

/-- Lookups into pointwise-shuffled listings succeed together and return
shuffle-related children, the left one a listed entry. -/
theorem findEntry_SL : ∀ {es₁ es₂ : List (String × FsNode)}, ShuffleList es₁ es₂ →
    ∀ i : String,
    (findEntry es₁ i = none ∧ findEntry es₂ i = none) ∨
    ∃ c₁ c₂, findEntry es₁ i = some c₁ ∧ findEntry es₂ i = some c₂ ∧
      Shuffle c₁ c₂ ∧ (i, c₁) ∈ es₁ := by
  intro es₁
  induction es₁ with
  | nil =>
    intro es₂ h i
    cases h
    left
    exact ⟨rfl, rfl⟩
  | cons e r ih =>
    intro es₂ h i
    obtain ⟨n, c⟩ := e
    cases h with
    | cons hc hr =>
      rename_i c2 r2
      by_cases hn : n = i
      · subst hn
        right
        exact ⟨c, c2, findEntry_cons_self, findEntry_cons_self, hc, List.mem_cons_self _ _⟩
      · rw [findEntry_cons_ne hn, findEntry_cons_ne hn]
        rcases ih hr i with ⟨h1, h2⟩ | ⟨c₁, c₂, h1, h2, hsh, hm⟩
        · left
          exact ⟨h1, h2⟩
        · right
          exact ⟨c₁, c₂, h1, h2, hsh, List.mem_cons_of_mem _ hm⟩

/-- On a listing without repeated names, lookup is invariant under
reordering of the listing. -/
theorem findEntry_perm {es₂ es₃ : List (String × FsNode)}
    (hnd : nodupKeys (es₂.map (fun e => e.1)) = true) (hp : es₂.Perm es₃) (i : String) :
    findEntry es₂ i = findEntry es₃ i := by
  have hnd3 : nodupKeys (es₃.map (fun e => e.1)) = true := by
    rw [nodupKeys_iff_nodup] at hnd ⊢
    exact (hp.map (fun e => e.1)).nodup_iff.mp hnd
  cases h2 : findEntry es₂ i with
  | none =>
    symm
    rw [findEntry_eq_none] at h2 ⊢
    intro p hp3
    exact h2 p (hp.symm.subset hp3)
  | some c =>
    symm
    exact findEntry_of_mem hnd3 (hp.subset (findEntry_some_mem h2))

/-- Every child listed in a well-keyed listing is itself well-keyed. -/
theorem wfKeysList_mem : ∀ {es : List (String × FsNode)}, WFKeysList es →
    ∀ {p : String × FsNode}, p ∈ es → WFKeys p.2 := by
  intro es
  induction es with
  | nil =>
    intro h p hp
    cases hp
  | cons e r ih =>
    intro h p hp
    obtain ⟨n, c⟩ := e
    cases h with
    | cons hc hr =>
      rcases List.mem_cons.mp hp with he | he
      · subst he
        exact hc
      · exact ih hr he

/-- `build_tree` renders shuffle-equivalent snapshots of a well-keyed tree
identically, at every remaining depth, path and prefix: the sort of the
(identical) name multiset at each level erases the enumeration order. -/
theorem buildTree_shuffle : ∀ (rem : Nat) (a b : FsNode) (path pfx : String),
    WFKeys a → Shuffle a b → buildTree a path pfx rem = buildTree b path pfx rem := by
  intro rem
  induction rem with
  | zero =>
    intro a b path pfx _ _
    have hz : ∀ x : FsNode, buildTree x path pfx 0 = [] := by
      intro x
      cases x with
      | file fd => rfl
      | dir d => cases d <;> rfl
    rw [hz, hz]
  | succ rem ih =>
    intro a b path pfx hwf hs
    cases hs with
    | file d => rfl
    | dirErr e => rfl
    | dirOk hsl hperm =>
      rename_i es₁ es₂ es₃
      cases hwf with
      | dirOk hnd hwl =>
        have hkeys := SL_keys hsl
        have hkp : (es₁.map (fun e => e.1)).Perm (es₃.map (fun e => e.1)) := by
          rw [hkeys]
          exact hperm.map (fun e => e.1)
        have hitems : sortStrs (es₁.map (fun e => e.1)) = sortStrs (es₃.map (fun e => e.1)) :=
          sortStrs_eq_of_perm hkp
        have hnd2 : nodupKeys (es₂.map (fun e => e.1)) = true := by
          rw [← hkeys]
          exact hnd
        have hfe : ∀ i : String,
            (findEntry es₁ i = none ∧ findEntry es₃ i = none) ∨
            ∃ c₁ c₃, findEntry es₁ i = some c₁ ∧ findEntry es₃ i = some c₃ ∧
              WFKeys c₁ ∧ Shuffle c₁ c₃ := by
          intro i
          have h23 := findEntry_perm hnd2 hperm i
          rcases findEntry_SL hsl i with ⟨h1, h2⟩ | ⟨c₁, c₂, h1, h2, hsh, hm⟩
          · left
            refine ⟨h1, ?_⟩
            rw [← h23]
            exact h2
          · right
            refine ⟨c₁, c₂, h1, ?_, wfKeysList_mem hwl hm, hsh⟩
            rw [← h23]
            exact h2
        have hrender : ∀ items : List String,
            renderItems (fun c p q => buildTree c p q rem) es₁ path pfx items =
            renderItems (fun c p q => buildTree c p q rem) es₃ path pfx items := by
          intro items
          induction items with
          | nil => rfl
          | cons item rest ihr =>
            simp only [renderItems]
            rw [ihr]
            rcases hfe item with ⟨h1, h3⟩ | ⟨c₁, c₃, h1, h3, hw, hsh⟩
            · rw [h1, h3]
            · rw [h1, h3]
              cases hsh with
              | file d => rfl
              | dirErr e => rfl
              | dirOk hsl2 hperm2 =>
                rename_i f₁ f₂ f₃
                dsimp only
                rw [ih (.dir (.ok f₁)) (.dir (.ok f₃)) _ _ hw (Shuffle.dirOk hsl2 hperm2)]
        show buildTree (.dir (.ok es₁)) path pfx (rem + 1) =
          buildTree (.dir (.ok es₃)) path pfx (rem + 1)
        simp only [buildTree]
        rw [hitems]
        exact hrender _

/-- Claim C7: the Tree Renderer is deterministic on an unchanged directory
tree — two snapshots of the same tree that differ only in the enumeration
order `os.listdir` produced at each level (`Shuffle`), the tree having no
repeated names in any listing (`WFKeys`, true of every real directory),
render to the identical report, ordering and connectors included, because
entries are sorted lexicographically at each level; moreover a file whose
size read fails is listed bare without a size annotation while rendering
continues, and a subdirectory whose listing read fails contributes one
inline error line at its tree position while the rest still renders. -/
theorem c7_deterministic_tree (env : Env) (fs₁ fs₂ : FS) (input : String)
    (n₁ n₂ : FsNode)
    (h1 : fs₁ (resolveInput env input) = some n₁)
    (h2 : fs₂ (resolveInput env input) = some n₂)
    (hwf : WFKeys n₁) (hs : Shuffle n₁ n₂) :
    treeRun env fs₁ input = treeRun env fs₂ input ∧
    buildTree (.dir (.ok [("q", .file ⟨.error "boom", .ok ""⟩), ("z", okFile 3 "")]))
        "/t" "" 2 = ["├── q", "└── z (3 bytes)"] ∧
    buildTree (.dir (.ok [("bad", .dir (.error "denied")), ("z", okFile 3 "")]))
        "/t" "" 2 =
      ["├── bad/", "│   [Error reading directory: denied]", "└── z (3 bytes)"] := by
  refine ⟨?_, by decide, by decide⟩
  unfold treeRun treeCore
  rw [h1, h2]
  cases hs with
  | file d => rfl
  | dirErr e => rfl
  | dirOk hsl hperm =>
    rename_i es₁ es₂ es₃
    dsimp only
    rw [buildTree_shuffle 2 _ _ (resolveInput env input) "" hwf (Shuffle.dirOk hsl hperm)]

/-- Witness for C7: the two enumeration orders of the concrete two-level
tree at `/t` render to the same report. -/
theorem c7_witness : treeRun env0 fsT1 "/t" = treeRun env0 fsT2 "/t" := by
  have hwf : WFKeys nT1 := by
    refine WFKeys.dirOk (by decide) ?_
    exact WFKeysList.cons (WFKeys.file _)
      (WFKeysList.cons
        (WFKeys.dirOk (by decide)
          (WFKeysList.cons (WFKeys.file _)
            (WFKeysList.cons (WFKeys.file _) WFKeysList.nil)))
        WFKeysList.nil)
  have hperm2 : List.Perm
      [("d", okFile 2 ""), ("c", okFile 3 "")]
      [("c", okFile 3 ""), ("d", okFile 2 "")] :=
    List.Perm.swap _ _ []
  have hperm1 : List.Perm
      [("b", okFile 1 ""), ("a", FsNode.dir (Except.ok [("c", okFile 3 ""), ("d", okFile 2 "")]))]
      [("a", FsNode.dir (Except.ok [("c", okFile 3 ""), ("d", okFile 2 "")])), ("b", okFile 1 "")] :=
    List.Perm.swap _ _ []
  have hsl2 : ShuffleList [("d", okFile 2 ""), ("c", okFile 3 "")]
      [("d", okFile 2 ""), ("c", okFile 3 "")] :=
    ShuffleList.cons (Shuffle.file _) (ShuffleList.cons (Shuffle.file _) ShuffleList.nil)
  have hsA : Shuffle (FsNode.dir (Except.ok [("d", okFile 2 ""), ("c", okFile 3 "")]))
      (FsNode.dir (Except.ok [("c", okFile 3 ""), ("d", okFile 2 "")])) :=
    Shuffle.dirOk hsl2 hperm2
  have hsl1 : ShuffleList
      [("b", okFile 1 ""), ("a", FsNode.dir (Except.ok [("d", okFile 2 ""), ("c", okFile 3 "")]))]
      [("b", okFile 1 ""), ("a", FsNode.dir (Except.ok [("c", okFile 3 ""), ("d", okFile 2 "")]))] :=
    ShuffleList.cons (Shuffle.file _) (ShuffleList.cons hsA ShuffleList.nil)
  have hs : Shuffle nT1 nT2 := Shuffle.dirOk hsl1 hperm1
  exact (c7_deterministic_tree env0 fsT1 fsT2 "/t" nT1 nT2 rfl rfl hwf hs).1

end ViewTools
